import Mathlib

/-!
TM1640 LED driver: shallow embedding of `TM1640.c`.

The driver keeps three file-scope variables (`display_buffer`, `current_brightness`,
`display_on`) and bit-bangs a two-wire bus through four GPIO macros and a busy-wait delay.

* The three variables become the fields of `State`.  A fourth field, `bus`, records every
  macro invocation (`TM1640_CLK_LOW()`, ..., `TM1640_Delay()`) in program order, oldest first.
* `uint8_t` values are natural numbers; a conversion to `uint8_t` is written `u8` (`% 256`).
* Array accesses are checked: an access outside the array yields `none` (undefined behaviour
  in C).  Functions that index an array therefore return `Option`.
* `for (uint8_t i = 0; i < n; i++) body` is `forLoop body n 0`; every bound in the driver is
  at most 255, so the 8-bit counter never wraps.
* The HAL pin configuration in `TM1640_Init`/`TM1640_DeInit` is outside the model.
* The pin level that each GPIO macro writes is selected by the preprocessor; `gpioMacro` gives
  it as a function of how `TM1640_USE_BUFFER` is configured.
* A `char` is an integer between -128 and 255, which covers both signednesses.
-/

namespace TM1640

/-! ## Constants of `TM1640.h` -/

@[reducible] def TM1640_TOTAL_GRIDS : Nat := 16
@[reducible] def TM1640_CMD_DATA : Nat := 0x40
@[reducible] def TM1640_CMD_DISPLAY : Nat := 0x80
@[reducible] def TM1640_CMD_ADDRESS : Nat := 0xC0
@[reducible] def TM1640_DATA_WRITE : Nat := 0x00
@[reducible] def TM1640_DATA_AUTO_INC : Nat := 0x00
@[reducible] def TM1640_DATA_FIXED : Nat := 0x04
@[reducible] def TM1640_DISPLAY_OFF : Nat := 0x00
@[reducible] def TM1640_DISPLAY_ON : Nat := 0x08
@[reducible] def TM1640_BRIGHTNESS_14_16 : Nat := 7

/-! ## Data model -/

/-- One invocation of a GPIO macro or of the delay routine. -/
inductive BusEvent where
  | CLK_LOW
  | CLK_HIGH
  | DIO_LOW
  | DIO_HIGH
  | Delay
  deriving DecidableEq

/-- The driver's file-scope variables together with the trace of bus activity. -/
structure State where
  display_buffer : List Nat
  current_brightness : Nat
  display_on : Bool
  bus : List BusEvent
  deriving DecidableEq

/-- Conversion of an `int` expression to `uint8_t`. -/
def u8 (x : Nat) : Nat := x % 256

/-- Checked read of `display_buffer[i]`. -/
def bufLoad (s : State) (i : Nat) : Option Nat := s.display_buffer[i]?

/-- Checked write `display_buffer[i] = v`. -/
def bufStore (s : State) (i v : Nat) : Option State :=
  if i < s.display_buffer.length then
    some { s with display_buffer := s.display_buffer.set i v }
  else none

/-- Checked read of `data[i]` through a pointer to an array `data`. -/
def ptrLoad (data : List Nat) (i : Nat) : Option Nat := data[i]?

/-- The loop `for (i = i0; i < i0 + n; i++) body(i)`, by recursion on the number `n` of
iterations still to run. -/
def forLoop (body : Nat → State → Option State) : Nat → Nat → State → Option State
  | 0, _, s => some s
  | n + 1, i, s => (body i s).bind (forLoop body n (i + 1))

/-! ## GPIO macros and delay -/

def TM1640_CLK_LOW (s : State) : State := { s with bus := s.bus ++ [BusEvent.CLK_LOW] }

def TM1640_CLK_HIGH (s : State) : State := { s with bus := s.bus ++ [BusEvent.CLK_HIGH] }

def TM1640_DIO_LOW (s : State) : State := { s with bus := s.bus ++ [BusEvent.DIO_LOW] }

def TM1640_DIO_HIGH (s : State) : State := { s with bus := s.bus ++ [BusEvent.DIO_HIGH] }

def TM1640_Delay (s : State) : State := { s with bus := s.bus ++ [BusEvent.Delay] }

/-! ## Low-level protocol -/

def TM1640_Start (s : State) : State :=
  let s := TM1640_DIO_HIGH s
  let s := TM1640_CLK_HIGH s
  let s := TM1640_Delay s
  let s := TM1640_DIO_LOW s
  let s := TM1640_Delay s
  let s := TM1640_CLK_LOW s
  TM1640_Delay s

def TM1640_Stop (s : State) : State :=
  let s := TM1640_CLK_LOW s
  let s := TM1640_DIO_LOW s
  let s := TM1640_Delay s
  let s := TM1640_CLK_HIGH s
  let s := TM1640_Delay s
  let s := TM1640_DIO_HIGH s
  TM1640_Delay s

/-- Body of the loop of `TM1640_WriteByte`, up to but excluding `data >>= 1`. -/
def TM1640_WriteByte_body (s : State) (data : Nat) : State :=
  let s := TM1640_CLK_LOW s
  let s := TM1640_Delay s
  let s := if data &&& 0x01 ≠ 0 then TM1640_DIO_HIGH s else TM1640_DIO_LOW s
  let s := TM1640_Delay s
  let s := TM1640_CLK_HIGH s
  TM1640_Delay s

/-- The loop of `TM1640_WriteByte` with `n` iterations still to run. -/
def TM1640_WriteByte_loop : Nat → Nat → State → State
  | 0, _, s => s
  | n + 1, data, s => TM1640_WriteByte_loop n (u8 (data >>> 1)) (TM1640_WriteByte_body s data)

def TM1640_WriteByte (s : State) (data : Nat) : State :=
  TM1640_WriteByte_loop 8 data s

def TM1640_SendCommand (s : State) (cmd : Nat) : State :=
  let s := TM1640_Start s
  let s := TM1640_WriteByte s cmd
  TM1640_Stop s

/-- The local `cmd` of `TM1640_UpdateDisplayControl` at the point where it is sent. -/
def TM1640_UpdateDisplayControl_cmd (display_on : Bool) (current_brightness : Nat) : Nat :=
  let cmd := TM1640_CMD_DISPLAY
  if display_on then
    u8 (cmd ||| (TM1640_DISPLAY_ON ||| (current_brightness &&& 0x07)))
  else
    u8 (cmd ||| TM1640_DISPLAY_OFF)

def TM1640_UpdateDisplayControl (s : State) : State :=
  TM1640_SendCommand s (TM1640_UpdateDisplayControl_cmd s.display_on s.current_brightness)

/-! ## Display control -/

def TM1640_SetBrightness (s : State) (brightness : Nat) : State :=
  let s := { s with current_brightness := brightness }
  TM1640_UpdateDisplayControl s

def TM1640_DisplayOn (s : State) (on_ : Bool) : State :=
  let s := { s with display_on := on_ }
  TM1640_UpdateDisplayControl s

/-- Body `display_buffer[i] = v` of the loops that fill the buffer with a constant. -/
def fillBody (v : Nat) (i : Nat) (s : State) : Option State :=
  bufStore s i v

/-- Body `TM1640_WriteByte(b)` of the loop that sends a constant. -/
def constBody (b : Nat) (_i : Nat) (s : State) : Option State :=
  some (TM1640_WriteByte s b)

def TM1640_Clear (s : State) : Option State := do
  let s ← forLoop (fillBody 0x00) TM1640_TOTAL_GRIDS 0 s
  let s := TM1640_SendCommand s
    (u8 (TM1640_CMD_DATA ||| TM1640_DATA_WRITE ||| TM1640_DATA_AUTO_INC))
  let s := TM1640_Start s
  let s := TM1640_WriteByte s (u8 (TM1640_CMD_ADDRESS ||| 0x00))
  let s ← forLoop (constBody 0x00) TM1640_TOTAL_GRIDS 0 s
  pure (TM1640_Stop s)

/-! ## Initialization -/

def TM1640_Init (s : State) : Option State := do
  let s := TM1640_CLK_HIGH s
  let s := TM1640_DIO_HIGH s
  let s ← forLoop (fillBody 0x00) TM1640_TOTAL_GRIDS 0 s
  let s := TM1640_SendCommand s
    (u8 (TM1640_CMD_DATA ||| TM1640_DATA_WRITE ||| TM1640_DATA_AUTO_INC))
  let s ← TM1640_Clear s
  let s := { s with current_brightness := TM1640_BRIGHTNESS_14_16 }
  let s := { s with display_on := true }
  pure (TM1640_UpdateDisplayControl s)

def TM1640_DeInit (s : State) : State :=
  let s := { s with display_on := false }
  TM1640_UpdateDisplayControl s

/-! ## Raw data access -/

def TM1640_WriteGrid (s : State) (address data : Nat) : Option State :=
  if address ≥ TM1640_TOTAL_GRIDS then some s
  else do
    let s ← bufStore s address data
    let s := TM1640_SendCommand s
      (u8 (TM1640_CMD_DATA ||| TM1640_DATA_WRITE ||| TM1640_DATA_FIXED))
    let s := TM1640_Start s
    let s := TM1640_WriteByte s (u8 (TM1640_CMD_ADDRESS ||| address))
    let s := TM1640_WriteByte s data
    pure (TM1640_Stop s)

/-- The value of `length` after the clamp at the head of `TM1640_WriteGridArray`; the sum
`start_address + length` is computed in `int` and cannot wrap. -/
def TM1640_WriteGridArray_length (start_address length : Nat) : Nat :=
  if start_address + length > TM1640_TOTAL_GRIDS then
    u8 (TM1640_TOTAL_GRIDS - start_address)
  else length

/-- Body `display_buffer[start_address + i] = data[i]` of the first loop of
`TM1640_WriteGridArray`. -/
def TM1640_WriteGridArray_copy (start_address : Nat) (data : List Nat) (i : Nat)
    (s : State) : Option State := do
  let v ← ptrLoad data i
  bufStore s (start_address + i) v

/-- Body `TM1640_WriteByte(data[i])` of the second loop of `TM1640_WriteGridArray`. -/
def TM1640_WriteGridArray_send (data : List Nat) (i : Nat) (s : State) : Option State := do
  let v ← ptrLoad data i
  pure (TM1640_WriteByte s v)

def TM1640_WriteGridArray (s : State) (start_address : Nat) (data : List Nat)
    (length : Nat) : Option State :=
  if start_address ≥ TM1640_TOTAL_GRIDS then some s
  else do
    let length := TM1640_WriteGridArray_length start_address length
    let s ← forLoop (TM1640_WriteGridArray_copy start_address data) length 0 s
    let s := TM1640_SendCommand s
      (u8 (TM1640_CMD_DATA ||| TM1640_DATA_WRITE ||| TM1640_DATA_AUTO_INC))
    let s := TM1640_Start s
    let s := TM1640_WriteByte s (u8 (TM1640_CMD_ADDRESS ||| start_address))
    let s ← forLoop (TM1640_WriteGridArray_send data) length 0 s
    pure (TM1640_Stop s)

def TM1640_GetBuffer (s : State) (address : Nat) : Option Nat :=
  if address ≥ TM1640_TOTAL_GRIDS then some 0
  else bufLoad s address

def TM1640_SetBuffer (s : State) (address data : Nat) : Option State :=
  if address ≥ TM1640_TOTAL_GRIDS then some s
  else bufStore s address data

/-- In `display_buffer[address] &= ~bit_mask` the operand `~bit_mask` is a 32-bit `int`;
its bit pattern is `0xFFFFFFFF - bit_mask`. -/
def TM1640_SetBufferBit (s : State) (address bit_mask : Nat) (set : Bool) : Option State :=
  if address ≥ TM1640_TOTAL_GRIDS then some s
  else if set then do
    let x ← bufLoad s address
    bufStore s address (u8 (x ||| bit_mask))
  else do
    let x ← bufLoad s address
    bufStore s address (u8 (x &&& (0xFFFFFFFF - bit_mask)))

/-- Body `TM1640_WriteByte(display_buffer[i])` of the loop of `TM1640_Flush`. -/
def TM1640_Flush_send (i : Nat) (s : State) : Option State := do
  let v ← bufLoad s i
  pure (TM1640_WriteByte s v)

def TM1640_Flush (s : State) : Option State := do
  let s := TM1640_SendCommand s
    (u8 (TM1640_CMD_DATA ||| TM1640_DATA_WRITE ||| TM1640_DATA_AUTO_INC))
  let s := TM1640_Start s
  let s := TM1640_WriteByte s (u8 (TM1640_CMD_ADDRESS ||| 0x00))
  let s ← forLoop TM1640_Flush_send TM1640_TOTAL_GRIDS 0 s
  pure (TM1640_Stop s)

/-! ## Utility -/

def TM1640_Test (s : State) : Option State := do
  let s ← forLoop (fillBody 0xFF) TM1640_TOTAL_GRIDS 0 s
  TM1640_Flush s

/-! ## Segment patterns -/

@[reducible] def TM1640_SEG_A : Nat := 0x01
@[reducible] def TM1640_SEG_B : Nat := 0x02
@[reducible] def TM1640_SEG_C : Nat := 0x04
@[reducible] def TM1640_SEG_D : Nat := 0x08
@[reducible] def TM1640_SEG_E : Nat := 0x10
@[reducible] def TM1640_SEG_F : Nat := 0x20
@[reducible] def TM1640_SEG_G : Nat := 0x40
@[reducible] def TM1640_SEG_DP : Nat := 0x80

/-- Digits 0-9. -/
def digit_patterns : List Nat :=
  [0x3F, 0x06, 0x5B, 0x4F, 0x66, 0x6D, 0x7D, 0x07, 0x7F, 0x6F]

/-- Hex A-F. -/
def hex_patterns : List Nat :=
  [0x77, 0x7C, 0x39, 0x5E, 0x79, 0x71]

/-- Characters A-Z. -/
def char_patterns : List Nat :=
  [0x77, 0x7C, 0x39, 0x5E, 0x79, 0x71, 0x3D, 0x76,
   0x06, 0x1E, 0x76, 0x38, 0x37, 0x54, 0x3F, 0x73,
   0x67, 0x50, 0x6D, 0x78, 0x3E, 0x3E, 0x3E, 0x76,
   0x6E, 0x5B]

/-- Checked read `table[i]` of a constant table with an `int` index. -/
def tableLoad (table : List Nat) (i : Int) : Option Nat :=
  if 0 ≤ i then table[i.toNat]? else none

/-- The value of a character constant, as an `int`. -/
@[reducible] def code (c : Char) : Int := (c.toNat : Int)

/-! ## Pattern functions -/

def TM1640_GetDigitPattern (digit : Nat) : Option Nat :=
  let digit := if digit > 9 then 9 else digit
  tableLoad digit_patterns digit

def TM1640_GetHexPattern (hex : Nat) : Option Nat :=
  if hex < 10 then tableLoad digit_patterns hex
  else if hex < 16 then tableLoad hex_patterns ((hex : Int) - 10)
  else some 0x00

def TM1640_GetCharPattern (ch : Int) : Option Nat :=
  if ch ≥ code '0' ∧ ch ≤ code '9' then tableLoad digit_patterns (ch - code '0')
  else if ch ≥ code 'A' ∧ ch ≤ code 'Z' then tableLoad char_patterns (ch - code 'A')
  else if ch ≥ code 'a' ∧ ch ≤ code 'z' then tableLoad char_patterns (ch - code 'a')
  else if ch = code '-' then some 0x40
  else if ch = code '_' then some 0x08
  else some 0x00

/-! ## Pin levels written by the GPIO macros -/

/-- The two values of `GPIO_PinState`. -/
inductive GPIO_PinState where
  | GPIO_PIN_RESET
  | GPIO_PIN_SET
  deriving DecidableEq

/-- The two pins of the bus. -/
inductive Pin where
  | TM1640_CLK_Pin
  | TM1640_DIO_Pin
  deriving DecidableEq

/-- The call `HAL_GPIO_WritePin(port, pin, level)` that a GPIO macro of `TM1640.c` expands to.
The argument says how `TM1640_USE_BUFFER` is configured: `none` when the macro is not
defined, `some v` when it is defined with value `v`.  The source selects the expansion with
`#ifdef TM1640_USE_BUFFER`.  `TM1640_Delay` writes no pin. -/
def gpioMacro (useBuffer : Option Nat) (e : BusEvent) : Option (Pin × GPIO_PinState) :=
  if useBuffer.isSome then
    match e with
    | .CLK_LOW => some (.TM1640_CLK_Pin, .GPIO_PIN_SET)
    | .CLK_HIGH => some (.TM1640_CLK_Pin, .GPIO_PIN_RESET)
    | .DIO_LOW => some (.TM1640_DIO_Pin, .GPIO_PIN_SET)
    | .DIO_HIGH => some (.TM1640_DIO_Pin, .GPIO_PIN_RESET)
    | .Delay => none
  else
    match e with
    | .CLK_LOW => some (.TM1640_CLK_Pin, .GPIO_PIN_RESET)
    | .CLK_HIGH => some (.TM1640_CLK_Pin, .GPIO_PIN_SET)
    | .DIO_LOW => some (.TM1640_DIO_Pin, .GPIO_PIN_RESET)
    | .DIO_HIGH => some (.TM1640_DIO_Pin, .GPIO_PIN_SET)
    | .Delay => none

/-- The configuration shipped in `TM1640_Config.h`: `#define TM1640_USE_BUFFER 1`. -/
def TM1640_USE_BUFFER : Option Nat := some 1

/-! ## Vocabulary for stating properties -/

/-- A state is well formed when `display_buffer` has its declared size and holds bytes. -/
def State.wf (s : State) : Prop :=
  s.display_buffer.length = TM1640_TOTAL_GRIDS ∧ ∀ x ∈ s.display_buffer, x < 256

instance (s : State) : Decidable s.wf := by
  unfold State.wf; infer_instance

/-- Signal events of a start condition. -/
def startTrace : List BusEvent :=
  [.DIO_HIGH, .CLK_HIGH, .Delay, .DIO_LOW, .Delay, .CLK_LOW, .Delay]

/-- Signal events of a stop condition. -/
def stopTrace : List BusEvent :=
  [.CLK_LOW, .DIO_LOW, .Delay, .CLK_HIGH, .Delay, .DIO_HIGH, .Delay]

/-- Signal events that clock out one bit. -/
def bitTrace (bit : Bool) : List BusEvent :=
  [.CLK_LOW, .Delay, if bit then .DIO_HIGH else .DIO_LOW, .Delay, .CLK_HIGH, .Delay]

/-- Signal events that clock out bits `0, 1, ..., 7` of `b`, in this order. -/
def byteTrace (b : Nat) : List BusEvent :=
  (List.range 8).flatMap fun k => bitTrace (b.testBit k)

/-- Signal events of one framed transaction carrying `bytes`. -/
def frameTrace (bytes : List Nat) : List BusEvent :=
  startTrace ++ bytes.flatMap byteTrace ++ stopTrace

/-- Bits `k, k+1, ..., k+n-1` of `b` clocked out in this order. -/
def bitsTrace (b : Nat) : Nat → Nat → List BusEvent
  | 0, _ => []
  | n + 1, k => bitTrace (b.testBit k) ++ bitsTrace b n (k + 1)

/-- The list `buf` with the segment starting at `pos` replaced by `vals`. -/
def overwrite (buf : List Nat) (pos : Nat) (vals : List Nat) : List Nat :=
  buf.take pos ++ vals ++ buf.drop (pos + vals.length)

/-- The events appended to the bus trace between a state `s` and a later state `s'`. -/
def emitted (s s' : State) : List BusEvent :=
  s'.bus.drop s.bus.length

/-- A receiver watching the two lines: their current levels and the data levels it has
sampled so far, oldest first. -/
structure Receiver where
  clk : Bool
  dio : Bool
  samples : List Bool
  deriving DecidableEq

/-- The receiver samples the data line whenever the clock goes from low to high. -/
def Receiver.step (r : Receiver) : BusEvent → Receiver
  | .CLK_LOW => { r with clk := false }
  | .CLK_HIGH => if r.clk then r else { r with clk := true, samples := r.samples ++ [r.dio] }
  | .DIO_LOW => { r with dio := false }
  | .DIO_HIGH => { r with dio := true }
  | .Delay => r

/-- The data levels sampled at the rising clock edges of `trace`, the lines being at levels
`clk` and `dio` before it. -/
def sampleRising (clk dio : Bool) (trace : List BusEvent) : List Bool :=
  (trace.foldl Receiver.step { clk := clk, dio := dio, samples := [] }).samples

/-- The number whose bits, least significant first, are `bits`. -/
def assembleLSB : List Bool → Nat
  | [] => 0
  | bit :: bits => (if bit then 1 else 0) + 2 * assembleLSB bits

/-- A device-side decoder of the two-wire protocol: the current line levels, whether a start
condition has opened a frame, the bits of the byte being received, the bytes of the open
frame, and the frames completed so far (each a list of bytes), oldest first. -/
structure Decoder where
  clk : Bool
  dio : Bool
  inFrame : Bool
  bits : List Bool
  bytes : List Nat
  frames : List (List Nat)
  deriving DecidableEq

/-- One signal event seen by the decoder.  Data falling while the clock is high is a start
condition, data rising while the clock is high closes the open frame (stop condition), and
inside a frame every rising clock edge shifts in the data level, least significant bit first,
a byte being complete after 8 bits. -/
def Decoder.step (d : Decoder) : BusEvent → Decoder
  | .Delay => d
  | .CLK_LOW => { d with clk := false }
  | .CLK_HIGH =>
    if d.clk then d
    else if d.inFrame then
      if (d.bits ++ [d.dio]).length = 8 then
        { d with clk := true, bits := [], bytes := d.bytes ++ [assembleLSB (d.bits ++ [d.dio])] }
      else { d with clk := true, bits := d.bits ++ [d.dio] }
    else { d with clk := true }
  | .DIO_LOW =>
    if d.clk && d.dio then { d with dio := false, inFrame := true, bits := [], bytes := [] }
    else { d with dio := false }
  | .DIO_HIGH =>
    if d.clk && !d.dio && d.inFrame then
      { d with dio := true, inFrame := false, bits := [], bytes := [],
               frames := d.frames ++ [d.bytes] }
    else { d with dio := true }

/-- The frames a device decodes from `trace`, the lines being at levels `clk` and `dio`
before it and no frame being open. -/
def decodeFrames (clk dio : Bool) (trace : List BusEvent) : List (List Nat) :=
  (trace.foldl Decoder.step
    { clk := clk, dio := dio, inFrame := false, bits := [], bytes := [], frames := [] }).frames

/-- A monitor of bus framing: the current line levels, whether a frame is open, and how many
start and stop conditions it has seen. -/
structure Monitor where
  clk : Bool
  dio : Bool
  inFrame : Bool
  starts : Nat
  stops : Nat
  deriving DecidableEq

/-- One signal event seen by the monitor.  A change of the data line while the clock is high
is accepted only as a high-to-low transition with no frame open (a start condition, which
opens a frame) or as a low-to-high transition with a frame open (the matching stop condition,
which closes it); any other such change is a framing violation, `none`. -/
def Monitor.step (m : Monitor) : BusEvent → Option Monitor
  | .Delay => some m
  | .CLK_LOW => some { m with clk := false }
  | .CLK_HIGH => some { m with clk := true }
  | .DIO_LOW =>
    if m.clk && m.dio then
      if m.inFrame then none
      else some { m with dio := false, inFrame := true, starts := m.starts + 1 }
    else some { m with dio := false }
  | .DIO_HIGH =>
    if m.clk && !m.dio then
      if m.inFrame then some { m with dio := true, inFrame := false, stops := m.stops + 1 }
      else none
    else some { m with dio := true }

/-- The monitor run over a trace. -/
def Monitor.run (m : Monitor) : List BusEvent → Option Monitor
  | [] => some m
  | e :: es => (m.step e).bind fun m' => m'.run es

/-- The idle bus (clock high, data high, no frame open) after `n` complete frames. -/
def Monitor.idle (n : Nat) : Monitor :=
  { clk := true, dio := true, inFrame := false, starts := n, stops := n }

/-- Starting from an idle bus, `trace` has well-formed framing with exactly `n` start
conditions, each followed by its stop condition, and leaves the bus idle. -/
def wellFramed (trace : List BusEvent) (n : Nat) : Prop :=
  (Monitor.idle 0).run trace = some (Monitor.idle n)

instance (trace : List BusEvent) (n : Nat) : Decidable (wellFramed trace n) := by
  unfold wellFramed; infer_instance

/-- No change of the data line while the clock is high, the lines being at levels `clk` and
`dio` before the trace. -/
def dataStableWhileClockHigh : Bool → Bool → List BusEvent → Bool
  | _, _, [] => true
  | _, dio, .CLK_LOW :: es => dataStableWhileClockHigh false dio es
  | _, dio, .CLK_HIGH :: es => dataStableWhileClockHigh true dio es
  | clk, dio, .DIO_LOW :: es => !(clk && dio) && dataStableWhileClockHigh clk false es
  | clk, dio, .DIO_HIGH :: es => !(clk && !dio) && dataStableWhileClockHigh clk true es
  | clk, dio, .Delay :: es => dataStableWhileClockHigh clk dio es

/-- An example state: a populated buffer, brightness 3, display on, a non-empty bus history. -/
def exState : State :=
  { display_buffer := [1, 2, 3, 4, 5, 6, 7, 8, 9, 10, 11, 12, 13, 14, 15, 255]
    current_brightness := 3
    display_on := true
    bus := [.Delay] }

/-! ## Bus-level lemmas -/

theorem Start_eq (s : State) : TM1640_Start s = { s with bus := s.bus ++ startTrace } := by
  simp [TM1640_Start, TM1640_DIO_HIGH, TM1640_CLK_HIGH, TM1640_Delay, TM1640_DIO_LOW,
    TM1640_CLK_LOW, startTrace]

theorem Stop_eq (s : State) : TM1640_Stop s = { s with bus := s.bus ++ stopTrace } := by
  simp [TM1640_Stop, TM1640_DIO_HIGH, TM1640_CLK_HIGH, TM1640_Delay, TM1640_DIO_LOW,
    TM1640_CLK_LOW, stopTrace]

theorem WriteByte_body_eq (s : State) (data : Nat) :
    TM1640_WriteByte_body s data = { s with bus := s.bus ++ bitTrace (data.testBit 0) } := by
  have h : (data &&& 1 ≠ 0) ↔ data.testBit 0 = true := by
    simp [Nat.testBit, Nat.and_comm]
  by_cases hb : data.testBit 0 = true
  · have h1 : data &&& 1 ≠ 0 := h.mpr hb
    simp only [TM1640_WriteByte_body, if_pos h1, hb]
    simp [TM1640_DIO_HIGH, TM1640_CLK_HIGH, TM1640_Delay, TM1640_CLK_LOW, bitTrace]
  · have h1 : ¬ (data &&& 1 ≠ 0) := fun hc => hb (h.mp hc)
    simp only [Bool.not_eq_true] at hb
    simp only [TM1640_WriteByte_body, if_neg h1, hb]
    simp [TM1640_DIO_LOW, TM1640_CLK_HIGH, TM1640_Delay, TM1640_CLK_LOW, bitTrace]

theorem bitsTrace_eq_flatMap (b : Nat) (n k : Nat) :
    bitsTrace b n k = (List.range n).flatMap fun j => bitTrace (b.testBit (k + j)) := by
  induction n generalizing k with
  | zero => simp [bitsTrace]
  | succ n ih =>
    rw [bitsTrace, ih, List.range_succ_eq_map]
    simp [List.flatMap_map, Nat.add_assoc, Nat.add_comm 1]

theorem WriteByte_loop_eq (n : Nat) : ∀ (k data b : Nat) (s : State), n + k ≤ 8 →
    (∀ j, j < n → data.testBit j = b.testBit (k + j)) →
    TM1640_WriteByte_loop n data s = { s with bus := s.bus ++ bitsTrace b n k } := by
  induction n with
  | zero => intro k data b s _ _; simp [TM1640_WriteByte_loop, bitsTrace]
  | succ n ih =>
    intro k data b s hk hbits
    rw [TM1640_WriteByte_loop, WriteByte_body_eq, ih (k + 1) _ b _ (by omega)]
    · have h0 := hbits 0 (by omega)
      simp only [Nat.add_zero] at h0
      simp [bitsTrace, h0]
    · intro j hj
      have := hbits (j + 1) (by omega)
      rw [u8, show (256 : Nat) = 2 ^ 8 by norm_num, Nat.testBit_mod_two_pow,
        Nat.testBit_shiftRight]
      have hj8 : j < 8 := by omega
      simp [hj8, this, Nat.add_assoc, Nat.add_comm 1]

theorem WriteByte_eq (s : State) (b : Nat) :
    TM1640_WriteByte s b = { s with bus := s.bus ++ byteTrace b } := by
  rw [TM1640_WriteByte, WriteByte_loop_eq 8 0 b b s (by omega) (by intro j _; simp),
    bitsTrace_eq_flatMap]
  simp [byteTrace]

theorem SendCommand_eq (s : State) (b : Nat) :
    TM1640_SendCommand s b = { s with bus := s.bus ++ frameTrace [b] } := by
  simp [TM1640_SendCommand, Start_eq, WriteByte_eq, Stop_eq, frameTrace]

/-! ## Buffer-level lemmas -/

theorem overwrite_nil (buf : List Nat) (pos : Nat) : overwrite buf pos [] = buf := by
  simp [overwrite]

theorem length_overwrite (buf : List Nat) (pos : Nat) (vals : List Nat)
    (h : pos + vals.length ≤ buf.length) : (overwrite buf pos vals).length = buf.length := by
  simp [overwrite]; omega

theorem getElem?_overwrite (buf : List Nat) (pos : Nat) (vals : List Nat) (a : Nat)
    (h : pos + vals.length ≤ buf.length) :
    (overwrite buf pos vals)[a]? =
      if a < pos then buf[a]? else if a < pos + vals.length then vals[a - pos]? else buf[a]? := by
  unfold overwrite
  by_cases h1 : a < pos
  · simp only [h1, if_true]
    rw [List.append_assoc, List.getElem?_append_left (by simp; omega), List.getElem?_take]
    simp [h1]
  · simp only [h1, if_false]
    have hlen : (List.take pos buf).length = pos := by simp; omega
    by_cases h2 : a < pos + vals.length
    · simp only [h2, if_true]
      rw [List.getElem?_append_left (by simp; omega),
        List.getElem?_append_right (by omega), hlen]
    · simp only [h2, if_false]
      rw [List.getElem?_append_right (by simp; omega)]
      simp only [List.length_append, hlen, List.getElem?_drop]
      congr 1; omega

theorem overwrite_set (buf : List Nat) (pos v : Nat) (vals : List Nat)
    (h : pos + 1 + vals.length ≤ buf.length) :
    overwrite (buf.set pos v) (pos + 1) vals = overwrite buf pos (v :: vals) := by
  apply List.ext_getElem?
  intro a
  rw [getElem?_overwrite _ _ _ _ (by simp; omega),
    getElem?_overwrite _ _ _ _ (by simp; omega), List.getElem?_set]
  have hp : pos < buf.length := by omega
  by_cases h1 : a < pos
  · have h2 : a < pos + 1 := by omega
    have h3 : pos ≠ a := by omega
    simp [h1, h2, h3]
  · by_cases h2 : a = pos
    · subst h2
      simp [hp]
    · have h3 : ¬ a < pos + 1 := by omega
      have h4 : pos ≠ a := fun hc => h2 hc.symm
      obtain ⟨k, hk⟩ : ∃ k, a = pos + 1 + k := ⟨a - (pos + 1), by omega⟩
      subst hk
      simp only [h1, h3, h4, if_false, List.length_cons]
      have e1 : pos + 1 + k - (pos + 1) = k := by omega
      have e2 : pos + 1 + k - pos = k + 1 := by omega
      rw [e1, e2, List.getElem?_cons_succ]
      by_cases h5 : k < vals.length
      · have h6 : pos + 1 + k < pos + 1 + vals.length := by omega
        have h7 : pos + 1 + k < pos + (vals.length + 1) := by omega
        simp [h6, h7]
      · have h6 : ¬ pos + 1 + k < pos + 1 + vals.length := by omega
        have h7 : ¬ pos + 1 + k < pos + (vals.length + 1) := by omega
        simp [h6, h7]

theorem take_succ_drop (data : List Nat) (i n : Nat) (hi : i < data.length) :
    (data.drop i).take (n + 1) = data[i] :: (data.drop (i + 1)).take n := by
  rw [List.drop_eq_getElem_cons hi, List.take_succ_cons]

theorem forLoop_fill (v : Nat) : ∀ (n i : Nat) (s : State),
    i + n ≤ s.display_buffer.length →
    forLoop (fillBody v) n i s =
      some { s with display_buffer := overwrite s.display_buffer i (List.replicate n v) } := by
  intro n
  induction n with
  | zero => intro i s _; simp [forLoop, overwrite_nil]
  | succ n ih =>
    intro i s h
    have hi : i < s.display_buffer.length := by omega
    rw [forLoop]
    simp only [fillBody, bufStore, hi, if_true, Option.some_bind]
    rw [ih (i + 1) _ (by simp; omega)]
    have hs : i + 1 + (List.replicate n v).length ≤ s.display_buffer.length := by
      simp; omega
    simp only [List.replicate_succ]
    rw [overwrite_set _ _ _ _ hs]

theorem forLoop_copy (start : Nat) (data : List Nat) : ∀ (n i : Nat) (s : State),
    i + n ≤ data.length → start + i + n ≤ s.display_buffer.length →
    forLoop (TM1640_WriteGridArray_copy start data) n i s =
      some { s with
        display_buffer := overwrite s.display_buffer (start + i) ((data.drop i).take n) } := by
  intro n
  induction n with
  | zero => intro i s _ _; simp [forLoop, overwrite_nil]
  | succ n ih =>
    intro i s hd hb
    have hi : i < data.length := by omega
    have hp : start + i < s.display_buffer.length := by omega
    rw [forLoop]
    simp only [TM1640_WriteGridArray_copy, ptrLoad, List.getElem?_eq_getElem hi, bufStore, hp,
      if_true, Option.some_bind, Option.bind_eq_bind]
    rw [ih (i + 1) _ (by omega) (by simp; omega)]
    simp only [take_succ_drop data i n hi]
    rw [show start + (i + 1) = start + i + 1 by omega,
      overwrite_set _ _ _ _ (by simp; omega)]

theorem forLoop_send (data : List Nat) : ∀ (n i : Nat) (s : State),
    i + n ≤ data.length →
    forLoop (TM1640_WriteGridArray_send data) n i s =
      some { s with bus := s.bus ++ ((data.drop i).take n).flatMap byteTrace } := by
  intro n
  induction n with
  | zero => intro i s _; simp [forLoop]
  | succ n ih =>
    intro i s hd
    have hi : i < data.length := by omega
    rw [forLoop]
    simp only [TM1640_WriteGridArray_send, ptrLoad, List.getElem?_eq_getElem hi,
      Option.some_bind, Option.bind_eq_bind, Option.pure_def]
    rw [ih (i + 1) _ (by omega), WriteByte_eq]
    simp [take_succ_drop data i n hi]

theorem forLoop_flush : ∀ (n i : Nat) (s : State),
    i + n ≤ s.display_buffer.length →
    forLoop TM1640_Flush_send n i s =
      some { s with bus := s.bus ++ ((s.display_buffer.drop i).take n).flatMap byteTrace } := by
  intro n
  induction n with
  | zero => intro i s _; simp [forLoop]
  | succ n ih =>
    intro i s hd
    have hi : i < s.display_buffer.length := by omega
    rw [forLoop]
    simp only [TM1640_Flush_send, bufLoad, List.getElem?_eq_getElem hi, Option.some_bind,
      Option.bind_eq_bind, Option.pure_def]
    rw [WriteByte_eq, ih (i + 1) _ (by simp; omega)]
    simp [take_succ_drop s.display_buffer i n hi]

theorem forLoop_const (b : Nat) : ∀ (n i : Nat) (s : State),
    forLoop (constBody b) n i s =
      some { s with bus := s.bus ++ (List.replicate n b).flatMap byteTrace } := by
  intro n
  induction n with
  | zero => intro i s; simp [forLoop]
  | succ n ih =>
    intro i s
    rw [forLoop]
    simp only [constBody, Option.some_bind]
    rw [ih (i + 1) _, WriteByte_eq]
    simp [List.replicate_succ]

/-! ## Closed forms of the driver operations -/

theorem u8_of_lt {x : Nat} (h : x < 256) : u8 x = x := Nat.mod_eq_of_lt h

theorem address_byte_lt (address : Nat) (h : address < 16) : 0xC0 ||| address < 256 := by
  have h1 : (0xC0 : Nat) < 2 ^ 8 := by norm_num
  have h2 : address < 2 ^ 8 := by omega
  have := Nat.or_lt_two_pow h1 h2
  simpa using this

theorem data_auto_inc_cmd :
    u8 (TM1640_CMD_DATA ||| TM1640_DATA_WRITE ||| TM1640_DATA_AUTO_INC) = 0x40 := by decide

theorem data_fixed_cmd :
    u8 (TM1640_CMD_DATA ||| TM1640_DATA_WRITE ||| TM1640_DATA_FIXED) = 0x44 := by decide

theorem address_cmd (address : Nat) (h : address < 16) :
    u8 (TM1640_CMD_ADDRESS ||| address) = 0xC0 ||| address :=
  u8_of_lt (address_byte_lt address h)

theorem address_zero_cmd : u8 (TM1640_CMD_ADDRESS ||| 0x00) = 0xC0 := by decide

theorem Clear_eq (s : State) (hs : s.display_buffer.length = 16) :
    TM1640_Clear s = some { s with
      display_buffer := List.replicate 16 0
      bus := s.bus ++ frameTrace [0x40] ++ frameTrace (0xC0 :: List.replicate 16 0) } := by
  have hfill := forLoop_fill 0 16 0 s (by rw [hs])
  have hov : overwrite s.display_buffer 0 (List.replicate 16 0) = List.replicate 16 0 := by
    have hd : List.drop 16 s.display_buffer = [] := List.drop_eq_nil_of_le (by rw [hs])
    simp [overwrite, hd]
  rw [hov] at hfill
  simp only [TM1640_Clear, TM1640_TOTAL_GRIDS, hfill, forLoop_const, SendCommand_eq, Start_eq,
    WriteByte_eq, Stop_eq, Option.bind_eq_bind, Option.some_bind, Option.pure_def,
    data_auto_inc_cmd, address_zero_cmd]
  simp only [frameTrace, List.flatMap_cons, List.flatMap_nil, List.append_nil,
    List.append_assoc]

theorem Flush_eq (s : State) (hs : s.display_buffer.length = 16) :
    TM1640_Flush s = some { s with
      bus := s.bus ++ frameTrace [0x40] ++ frameTrace (0xC0 :: s.display_buffer) } := by
  have htake : List.take 16 s.display_buffer = s.display_buffer :=
    List.take_of_length_le (by rw [hs])
  simp only [TM1640_Flush, TM1640_TOTAL_GRIDS, SendCommand_eq, Start_eq, WriteByte_eq, Stop_eq,
    data_auto_inc_cmd, address_zero_cmd]
  rw [bind_pure_comp, Option.map_eq_map, forLoop_flush 16 0 _ (by simp [hs])]
  simp only [Option.map_some', List.drop_zero, htake, frameTrace, List.flatMap_cons,
    List.flatMap_nil, List.append_nil, List.append_assoc]

theorem WriteGrid_eq (s : State) (address data : Nat) (ha : address < 16)
    (hs : s.display_buffer.length = 16) :
    TM1640_WriteGrid s address data = some { s with
      display_buffer := s.display_buffer.set address data
      bus := s.bus ++ frameTrace [0x44] ++ frameTrace [0xC0 ||| address, data] } := by
  have hna : ¬ address ≥ 16 := by omega
  have hlt : address < s.display_buffer.length := by omega
  simp only [TM1640_WriteGrid, TM1640_TOTAL_GRIDS, hna, if_false, bufStore, hlt, if_true,
    SendCommand_eq, Start_eq, WriteByte_eq, Stop_eq, Option.bind_eq_bind, Option.some_bind,
    Option.pure_def, address_cmd address ha, data_fixed_cmd]
  simp only [frameTrace, List.flatMap_cons, List.flatMap_nil, List.append_nil,
    List.append_assoc]

theorem WriteGridArray_length_eq (start_address length : Nat) (ha : start_address < 16) :
    TM1640_WriteGridArray_length start_address length = min length (16 - start_address) := by
  simp only [TM1640_WriteGridArray_length, TM1640_TOTAL_GRIDS, u8]
  split <;> omega

theorem WriteGridArray_eq (s : State) (start_address : Nat) (data : List Nat) (length : Nat)
    (ha : start_address < 16) (hs : s.display_buffer.length = 16)
    (hd : min length (16 - start_address) ≤ data.length) :
    TM1640_WriteGridArray s start_address data length = some { s with
      display_buffer := overwrite s.display_buffer start_address
        (data.take (min length (16 - start_address)))
      bus := s.bus ++ frameTrace [0x40] ++
        frameTrace ((0xC0 ||| start_address) :: data.take (min length (16 - start_address))) } := by
  have hna : ¬ start_address ≥ 16 := by omega
  have hcopy := forLoop_copy start_address data (min length (16 - start_address)) 0 s
    (by omega) (by omega)
  simp only [Nat.add_zero, List.drop_zero] at hcopy
  simp only [TM1640_WriteGridArray, TM1640_TOTAL_GRIDS, hna, if_false,
    WriteGridArray_length_eq _ _ ha, hcopy,
    SendCommand_eq, Start_eq, WriteByte_eq, Stop_eq, Option.bind_eq_bind, Option.some_bind,
    Option.pure_def, address_cmd start_address ha, data_auto_inc_cmd]
  rw [forLoop_send data _ 0 _ (by omega)]
  simp only [Option.some_bind, List.drop_zero, frameTrace, List.flatMap_cons,
    List.flatMap_nil, List.append_nil, List.append_assoc]

/-! ## Receiver-side lemmas -/

theorem emitted_append (s : State) (t : List BusEvent) (buf : List Nat) (br : Nat) (o : Bool) :
    emitted s { display_buffer := buf, current_brightness := br, display_on := o,
                bus := s.bus ++ t } = t := by
  simp [emitted]

theorem foldl_step_bitTrace (r : Receiver) (bit : Bool) :
    (bitTrace bit).foldl Receiver.step r =
      { clk := true, dio := bit, samples := r.samples ++ [bit] } := by
  cases bit <;> simp [bitTrace, Receiver.step]

theorem foldl_step_bits (bits : List Bool) : ∀ r : Receiver,
    ((bits.flatMap bitTrace).foldl Receiver.step r).samples = r.samples ++ bits := by
  induction bits with
  | nil => intro r; simp
  | cons bit bits ih =>
    intro r
    rw [List.flatMap_cons, List.foldl_append, foldl_step_bitTrace, ih]
    simp

theorem byteTrace_eq_bits (b : Nat) :
    byteTrace b = ((List.range 8).map b.testBit).flatMap bitTrace := by
  simp [byteTrace, List.flatMap_map]

theorem sampleRising_byteTrace (clk dio : Bool) (b : Nat) :
    sampleRising clk dio (byteTrace b) = (List.range 8).map b.testBit := by
  rw [sampleRising, byteTrace_eq_bits, foldl_step_bits]
  simp

theorem assembleLSB_testBit (n : Nat) : ∀ b : Nat,
    assembleLSB ((List.range n).map b.testBit) = b % 2 ^ n := by
  induction n with
  | zero => intro b; simp [assembleLSB, Nat.mod_one]
  | succ n ih =>
    intro b
    have hshift : (List.range n).map (b.testBit ∘ Nat.succ) = (List.range n).map (b / 2).testBit := by
      apply List.map_congr_left
      intro k _
      simp [Nat.testBit_succ]
    have h0 : (if b.testBit 0 = true then 1 else 0) = b % 2 := by
      rcases Nat.mod_two_eq_zero_or_one b with h | h <;> simp [Nat.testBit, h, Nat.and_comm]
    rw [List.range_succ_eq_map, List.map_cons, List.map_map, hshift, assembleLSB, ih, h0,
      pow_succ', Nat.mod_mul]

/-! ## Decoder lemmas -/

theorem decoder_start (d : Decoder) (hf : d.inFrame = false) :
    startTrace.foldl Decoder.step d =
      { d with clk := false, dio := false, inFrame := true, bits := [], bytes := [] } := by
  obtain ⟨clk, dio, inFrame, bits, bytes, frames⟩ := d
  simp only at hf
  subst hf
  cases clk <;> cases dio <;> simp [startTrace, Decoder.step]

theorem decoder_bit (d : Decoder) (bit : Bool) (hf : d.inFrame = true)
    (hlen : d.bits.length + 1 < 8) :
    (bitTrace bit).foldl Decoder.step d =
      { d with clk := true, dio := bit, bits := d.bits ++ [bit] } := by
  obtain ⟨clk, dio, inFrame, bits, bytes, frames⟩ := d
  simp only at hf hlen
  subst hf
  have hne : ¬ bits.length + 1 = 8 := by omega
  cases bit <;> simp [bitTrace, Decoder.step, hne]

theorem decoder_last_bit (d : Decoder) (bit : Bool) (hf : d.inFrame = true)
    (hlen : d.bits.length + 1 = 8) :
    (bitTrace bit).foldl Decoder.step d =
      { d with clk := true, dio := bit, bits := [],
               bytes := d.bytes ++ [assembleLSB (d.bits ++ [bit])] } := by
  obtain ⟨clk, dio, inFrame, bits, bytes, frames⟩ := d
  simp only at hf hlen
  subst hf
  cases bit <;> simp [bitTrace, Decoder.step, hlen]

theorem decoder_eight_bits (d : Decoder) (t0 t1 t2 t3 t4 t5 t6 t7 : Bool)
    (hf : d.inFrame = true) (hb : d.bits = []) :
    (bitTrace t0 ++ bitTrace t1 ++ bitTrace t2 ++ bitTrace t3 ++ bitTrace t4 ++ bitTrace t5 ++
      bitTrace t6 ++ bitTrace t7).foldl Decoder.step d =
      { d with clk := true, dio := t7,
               bytes := d.bytes ++ [assembleLSB [t0, t1, t2, t3, t4, t5, t6, t7]] } := by
  obtain ⟨clk, dio, inFrame, bits, bytes, frames⟩ := d
  simp only at hf hb
  subst hf hb
  simp only [List.foldl_append]
  rw [decoder_bit _ t0 rfl (by simp)]
  rw [decoder_bit _ t1 rfl (by simp)]
  rw [decoder_bit _ t2 rfl (by simp)]
  rw [decoder_bit _ t3 rfl (by simp)]
  rw [decoder_bit _ t4 rfl (by simp)]
  rw [decoder_bit _ t5 rfl (by simp)]
  rw [decoder_bit _ t6 rfl (by simp)]
  rw [decoder_last_bit _ t7 rfl (by simp)]
  simp

theorem decoder_byte (d : Decoder) (b : Nat) (hf : d.inFrame = true) (hb : d.bits = []) :
    (byteTrace b).foldl Decoder.step d =
      { d with clk := true, dio := b.testBit 7, bytes := d.bytes ++ [b % 256] } := by
  have hval := assembleLSB_testBit 8 b
  have htr : byteTrace b = bitTrace (b.testBit 0) ++ bitTrace (b.testBit 1) ++
      bitTrace (b.testBit 2) ++ bitTrace (b.testBit 3) ++ bitTrace (b.testBit 4) ++
      bitTrace (b.testBit 5) ++ bitTrace (b.testBit 6) ++ bitTrace (b.testBit 7) := by
    simp [byteTrace, List.range_succ_eq_map]
  have hbits : (List.range 8).map b.testBit = [b.testBit 0, b.testBit 1, b.testBit 2,
      b.testBit 3, b.testBit 4, b.testBit 5, b.testBit 6, b.testBit 7] := by
    simp [List.range_succ_eq_map]
  rw [hbits] at hval
  rw [htr, decoder_eight_bits d _ _ _ _ _ _ _ _ hf hb, hval]
  norm_num

theorem decoder_bytes (bs : List Nat) : ∀ d : Decoder, d.inFrame = true → d.bits = [] →
    ((bs.flatMap byteTrace).foldl Decoder.step d).inFrame = true ∧
    ((bs.flatMap byteTrace).foldl Decoder.step d).bits = [] ∧
    ((bs.flatMap byteTrace).foldl Decoder.step d).bytes = d.bytes ++ bs.map (· % 256) ∧
    ((bs.flatMap byteTrace).foldl Decoder.step d).frames = d.frames := by
  induction bs with
  | nil => intro d hf hb; simp [hf, hb]
  | cons b bs ih =>
    intro d hf hb
    rw [List.flatMap_cons, List.foldl_append, decoder_byte d b hf hb]
    have h := ih { d with clk := true, dio := b.testBit 7, bytes := d.bytes ++ [b % 256] } hf hb
    simpa using h

theorem decoder_stop (d : Decoder) (hf : d.inFrame = true) (hb : d.bits = []) :
    stopTrace.foldl Decoder.step d =
      { clk := true, dio := true, inFrame := false, bits := [], bytes := [],
        frames := d.frames ++ [d.bytes] } := by
  obtain ⟨clk, dio, inFrame, bits, bytes, frames⟩ := d
  simp only at hf hb
  subst hf hb
  simp [stopTrace, Decoder.step]

theorem decoder_frame (d : Decoder) (bs : List Nat) (hf : d.inFrame = false) :
    (frameTrace bs).foldl Decoder.step d =
      { clk := true, dio := true, inFrame := false, bits := [], bytes := [],
        frames := d.frames ++ [bs.map (· % 256)] } := by
  rw [frameTrace, List.foldl_append, List.foldl_append, decoder_start d hf]
  obtain ⟨h1, h2, h3, h4⟩ := decoder_bytes bs
    { d with clk := false, dio := false, inFrame := true, bits := [], bytes := [] } rfl rfl
  rw [decoder_stop _ h1 h2, h3, h4]
  simp

theorem decoder_frames (fs : List (List Nat)) : ∀ d : Decoder, d.inFrame = false →
    ((fs.flatMap frameTrace).foldl Decoder.step d).frames =
      d.frames ++ fs.map (List.map (· % 256)) := by
  induction fs with
  | nil => intro d _; simp
  | cons f fs ih =>
    intro d hf
    rw [List.flatMap_cons, List.foldl_append, decoder_frame d f hf, ih _ rfl]
    simp

theorem decodeFrames_frames (clk dio : Bool) (fs : List (List Nat))
    (hfs : ∀ f ∈ fs, ∀ b ∈ f, b < 256) :
    decodeFrames clk dio (fs.flatMap frameTrace) = fs := by
  rw [decodeFrames, decoder_frames fs _ rfl]
  simp only [List.nil_append]
  conv_rhs => rw [← List.map_id fs]
  apply List.map_congr_left
  intro f hf
  conv_rhs => rw [id, ← List.map_id f]
  apply List.map_congr_left
  intro b hb
  exact Nat.mod_eq_of_lt (hfs f hf b hb)

theorem decodeFrames_single (clk dio : Bool) (f : List Nat) (hf : ∀ b ∈ f, b < 256) :
    decodeFrames clk dio (frameTrace f) = [f] := by
  have h := decodeFrames_frames clk dio [f] (by simpa using hf)
  simpa using h

theorem decodeFrames_pair (clk dio : Bool) (f g : List Nat) (hf : ∀ b ∈ f, b < 256)
    (hg : ∀ b ∈ g, b < 256) :
    decodeFrames clk dio (frameTrace f ++ frameTrace g) = [f, g] := by
  have h := decodeFrames_frames clk dio [f, g] (by
    intro x hx b hb
    simp only [List.mem_cons, List.mem_singleton, List.not_mem_nil, or_false] at hx
    rcases hx with rfl | rfl
    · exact hf b hb
    · exact hg b hb)
  simpa using h

theorem UpdateDisplayControl_cmd_lt (o : Bool) (b : Nat) :
    TM1640_UpdateDisplayControl_cmd o b < 256 := by
  unfold TM1640_UpdateDisplayControl_cmd u8
  split <;> exact Nat.mod_lt _ (by norm_num)

/-! ## Buffer contracts of the write operations -/

/-- Claim C1. For every address `addr` in 0..15, every value `v` and every prior buffer
content, `TM1640_WriteGrid(addr, v)` returns, afterwards `TM1640_GetBuffer(addr)` returns `v`,
and `TM1640_GetBuffer(a)` returns what it returned before for every other address `a`. -/
theorem C1_writeGrid_then_getBuffer (s : State) (addr v : Nat)
    (hs : s.display_buffer.length = 16) (haddr : addr < 16) :
    ∃ s', TM1640_WriteGrid s addr v = some s' ∧
      TM1640_GetBuffer s' addr = some v ∧
      ∀ a, a ≠ addr → TM1640_GetBuffer s' a = TM1640_GetBuffer s a := by
  refine ⟨_, WriteGrid_eq s addr v haddr hs, ?_, ?_⟩
  · have hna : ¬ addr ≥ 16 := by omega
    have hlt : addr < s.display_buffer.length := by omega
    simp [TM1640_GetBuffer, TM1640_TOTAL_GRIDS, hna, bufLoad, List.getElem?_set, hlt]
  · intro a ha
    have hne : addr ≠ a := fun h => ha h.symm
    by_cases h16 : a ≥ 16
    · simp [TM1640_GetBuffer, TM1640_TOTAL_GRIDS, h16]
    · simp [TM1640_GetBuffer, TM1640_TOTAL_GRIDS, h16, bufLoad, List.getElem?_set, hne]

theorem C1_writeGrid_then_getBuffer_witness :
    exState.display_buffer.length = 16 ∧ 5 < 16 ∧
    ∃ s', TM1640_WriteGrid exState 5 0xA7 = some s' ∧
      TM1640_GetBuffer s' 5 = some 0xA7 ∧
      ∀ a, a ≠ 5 → TM1640_GetBuffer s' a = TM1640_GetBuffer exState a :=
  ⟨by decide, by decide, C1_writeGrid_then_getBuffer exState 5 0xA7 (by decide) (by decide)⟩

/-- Claim C2. For every start address `start` in 0..15, every `length` and every array `data`
holding at least `n = min(length, 16 - start)` bytes, `TM1640_WriteGridArray(start, data, length)`
returns without any access outside `display_buffer[0..15]` or outside `data[0..n-1]`; the buffer
keeps its 16 entries, `buffer[start + i] = data[i]` for every `i < n`, and every buffer byte at
an index below `start` or at or above `start + n` is unchanged.  The written range ends at
`start + n <= 16`, whatever `length` is. -/
theorem C2_writeGridArray_clamped (s : State) (start length : Nat) (data : List Nat)
    (hs : s.display_buffer.length = 16) (hstart : start < 16)
    (hdata : min length (16 - start) ≤ data.length) :
    ∃ s', TM1640_WriteGridArray s start data length = some s' ∧
      s'.display_buffer.length = 16 ∧
      start + min length (16 - start) ≤ 16 ∧
      (∀ i, i < min length (16 - start) → s'.display_buffer[start + i]? = data[i]?) ∧
      (∀ a, a < start ∨ start + min length (16 - start) ≤ a →
        s'.display_buffer[a]? = s.display_buffer[a]?) := by
  have hlen : (data.take (min length (16 - start))).length = min length (16 - start) := by
    simp; omega
  have hfit : start + (data.take (min length (16 - start))).length ≤ s.display_buffer.length := by
    rw [hlen]; omega
  refine ⟨_, WriteGridArray_eq s start data length hstart hs hdata, ?_, by omega, ?_, ?_⟩
  · simp only [length_overwrite _ _ _ hfit, hs]
  · intro i hi
    simp only [getElem?_overwrite _ _ _ _ hfit, hlen]
    have h1 : ¬ start + i < start := by omega
    have h2 : start + i < start + min length (16 - start) := by omega
    simp only [h1, h2, if_false, if_true, Nat.add_sub_cancel_left, List.getElem?_take, hi]
  · intro a ha
    simp only [getElem?_overwrite _ _ _ _ hfit, hlen]
    rcases ha with ha | ha
    · simp [ha]
    · have h1 : ¬ a < start := by omega
      have h2 : ¬ a < start + min length (16 - start) := by omega
      simp [h1, h2]

theorem C2_writeGridArray_clamped_witness :
    exState.display_buffer.length = 16 ∧ 10 < 16 ∧
    min 7 (16 - 10) ≤ [21, 22, 23, 24, 25, 26, 27].length ∧
    ∃ s', TM1640_WriteGridArray exState 10 [21, 22, 23, 24, 25, 26, 27] 7 = some s' ∧
      s'.display_buffer.length = 16 ∧
      10 + min 7 (16 - 10) ≤ 16 ∧
      (∀ i, i < min 7 (16 - 10) →
        s'.display_buffer[10 + i]? = [21, 22, 23, 24, 25, 26, 27][i]?) ∧
      (∀ a, a < 10 ∨ 10 + min 7 (16 - 10) ≤ a →
        s'.display_buffer[a]? = exState.display_buffer[a]?) :=
  ⟨by decide, by decide, by decide,
    C2_writeGridArray_clamped exState 10 7 [21, 22, 23, 24, 25, 26, 27]
      (by decide) (by decide) (by decide)⟩

/-- Claim C3. For every address `addr >= 16` and every value `v`, `TM1640_WriteGrid(addr, v)`
returns the state it was given: buffer, brightness, on/off flag and bus trace are all
unchanged, so no signal event is emitted.  The same holds for
`TM1640_WriteGridArray(addr, data, length)` for every `data` and `length`. -/
theorem C3_out_of_range_noop (s : State) (addr v : Nat) (data : List Nat) (length : Nat)
    (haddr : 16 ≤ addr) :
    TM1640_WriteGrid s addr v = some s ∧
    TM1640_WriteGridArray s addr data length = some s := by
  have h : addr ≥ TM1640_TOTAL_GRIDS := haddr
  simp [TM1640_WriteGrid, TM1640_WriteGridArray, h]

theorem C3_out_of_range_noop_witness :
    16 ≤ 255 ∧
    TM1640_WriteGrid exState 255 0x5A = some exState ∧
    TM1640_WriteGridArray exState 255 [1, 2, 3] 3 = some exState :=
  ⟨by decide, C3_out_of_range_noop exState 255 0x5A [1, 2, 3] 3 (by decide)⟩

/-! ## Transactions of `TM1640_Flush` and `TM1640_Clear` -/

/-- Claim C4. For every buffer content (16 bytes), `TM1640_Flush` returns, leaves buffer,
brightness and on/off flag unchanged, and appends to the bus exactly the single-byte frame
`[0x40]` (auto-increment data command) followed by one frame (one start, one stop) carrying
`0xC0` (address 0) and then `buffer[0], ..., buffer[15]` in ascending order.  A device decoding
the appended events sees exactly these two frames, and the second holds 1 + 16 bytes. -/
theorem C4_flush_frames (s : State) (hwf : s.wf) :
    TM1640_Flush s = some { s with
      bus := s.bus ++ frameTrace [0x40] ++ frameTrace (0xC0 :: s.display_buffer) } ∧
    (0xC0 :: s.display_buffer).length = 1 + 16 ∧
    ∀ clk dio : Bool,
      decodeFrames clk dio (frameTrace [0x40] ++ frameTrace (0xC0 :: s.display_buffer)) =
        [[0x40], 0xC0 :: s.display_buffer] := by
  refine ⟨Flush_eq s hwf.1, by simp [hwf.1], fun clk dio => ?_⟩
  apply decodeFrames_pair
  · intro b hb
    simp only [List.mem_singleton] at hb
    omega
  · intro b hb
    simp only [List.mem_cons] at hb
    rcases hb with rfl | hb
    · norm_num
    · exact hwf.2 b hb

theorem C4_flush_frames_witness :
    exState.wf ∧
    (TM1640_Flush exState = some { exState with
      bus := exState.bus ++ frameTrace [0x40] ++ frameTrace (0xC0 :: exState.display_buffer) } ∧
    (0xC0 :: exState.display_buffer).length = 1 + 16 ∧
    ∀ clk dio : Bool,
      decodeFrames clk dio
          (frameTrace [0x40] ++ frameTrace (0xC0 :: exState.display_buffer)) =
        [[0x40], 0xC0 :: exState.display_buffer]) :=
  ⟨by decide, C4_flush_frames exState (by decide)⟩

/-- Claim C5. From every prior state (16-byte buffer), `TM1640_Clear` returns with all 16
buffer bytes equal to 0, brightness and on/off flag unchanged, and appends to the bus exactly
the frame `[0x40]` (auto-increment data command) followed by one frame carrying `0xC0`
(address 0) and 16 data bytes `0x00`.  A device decoding the appended events sees exactly these
two frames. -/
theorem C5_clear_frames (s : State) (hs : s.display_buffer.length = 16) :
    TM1640_Clear s = some { s with
      display_buffer := List.replicate 16 0
      bus := s.bus ++ frameTrace [0x40] ++ frameTrace (0xC0 :: List.replicate 16 0) } ∧
    ∀ clk dio : Bool,
      decodeFrames clk dio (frameTrace [0x40] ++ frameTrace (0xC0 :: List.replicate 16 0)) =
        [[0x40], 0xC0 :: List.replicate 16 0] := by
  refine ⟨Clear_eq s hs, fun clk dio => ?_⟩
  apply decodeFrames_pair
  · intro b hb
    simp only [List.mem_singleton] at hb
    omega
  · intro b hb
    simp only [List.mem_cons, List.mem_replicate] at hb
    rcases hb with rfl | ⟨_, rfl⟩ <;> norm_num

theorem C5_clear_frames_witness :
    exState.display_buffer.length = 16 ∧
    (TM1640_Clear exState = some { exState with
      display_buffer := List.replicate 16 0
      bus := exState.bus ++ frameTrace [0x40] ++ frameTrace (0xC0 :: List.replicate 16 0) } ∧
    ∀ clk dio : Bool,
      decodeFrames clk dio (frameTrace [0x40] ++ frameTrace (0xC0 :: List.replicate 16 0)) =
        [[0x40], 0xC0 :: List.replicate 16 0]) :=
  ⟨by decide, C5_clear_frames exState (by decide)⟩

/-! ## Display control, buffer accessors and byte serialization -/

theorem and_seven_lt (b : Nat) : b &&& 0x07 < 8 := by
  have h := Nat.and_pow_two_sub_one_eq_mod b 3
  have h' : b &&& 7 = b % 8 := by simpa using h
  rw [h']
  omega

/-- Claim C6. The byte that `TM1640_UpdateDisplayControl` builds from `(display_on,
current_brightness)` is `0x80 | 0x08 | (brightness & 0x07)` when the display is on and `0x80`
when it is off, for every brightness value; for `(true, 5)` it is `0x8D`.
`TM1640_UpdateDisplayControl` appends to the bus exactly the single-byte frame carrying this
byte and changes nothing else; a device decoding the appended events sees this one frame. -/
theorem C6_display_control_byte (b : Nat) :
    TM1640_UpdateDisplayControl_cmd true b = 0x80 ||| 0x08 ||| (b &&& 0x07) ∧
    TM1640_UpdateDisplayControl_cmd false b = 0x80 ∧
    TM1640_UpdateDisplayControl_cmd true 5 = 0x8D ∧
    ∀ s : State,
      TM1640_UpdateDisplayControl s = { s with
        bus := s.bus ++
          frameTrace [TM1640_UpdateDisplayControl_cmd s.display_on s.current_brightness] } ∧
      ∀ clk dio : Bool,
        decodeFrames clk dio (emitted s (TM1640_UpdateDisplayControl s)) =
          [[TM1640_UpdateDisplayControl_cmd s.display_on s.current_brightness]] := by
  refine ⟨?_, rfl, by decide, fun s => ⟨SendCommand_eq s _, fun clk dio => ?_⟩⟩
  · have h := and_seven_lt b
    simp only [TM1640_UpdateDisplayControl_cmd, TM1640_CMD_DISPLAY, TM1640_DISPLAY_ON, u8,
      if_true]
    generalize b &&& 0x07 = c at h ⊢
    interval_cases c <;> decide
  · rw [TM1640_UpdateDisplayControl, SendCommand_eq, emitted_append]
    apply decodeFrames_single
    intro x hx
    simp only [List.mem_singleton] at hx
    rw [hx]
    exact UpdateDisplayControl_cmd_lt _ _

theorem or_byte_lt {x m : Nat} (hx : x < 256) (hm : m < 256) : x ||| m < 256 := by
  have h1 : x < 2 ^ 8 := by omega
  have h2 : m < 2 ^ 8 := by omega
  have := Nat.or_lt_two_pow h1 h2
  simpa using this

theorem testBit_and_not_byte (x m k : Nat) (hm : m < 256) :
    (x &&& (255 - m)).testBit k = (decide (k < 8) && (x.testBit k && !m.testBit k)) := by
  have h : (2 ^ 8 - (m + 1)).testBit k = (decide (k < 8) && !m.testBit k) :=
    Nat.testBit_two_pow_sub_succ (by omega) k
  have e : 255 - m = 2 ^ 8 - (m + 1) := by omega
  rw [Nat.testBit_and, e, h]
  cases x.testBit k <;> cases m.testBit k <;> simp

theorem and_not_int_eq (x m : Nat) (hm : m < 256) :
    u8 (x &&& (0xFFFFFFFF - m)) = x &&& (255 - m) := by
  apply Nat.eq_of_testBit_eq
  intro k
  have h : (2 ^ 32 - (m + 1)).testBit k = (decide (k < 32) && !m.testBit k) :=
    Nat.testBit_two_pow_sub_succ (by omega) k
  have e : 0xFFFFFFFF - m = 2 ^ 32 - (m + 1) := by omega
  rw [u8, show (256 : Nat) = 2 ^ 8 by norm_num, Nat.testBit_mod_two_pow, Nat.testBit_and, e, h,
    testBit_and_not_byte x m k hm]
  by_cases h8 : k < 8
  · have h32 : k < 32 := by omega
    simp [h8, h32]
  · simp [h8]

theorem wf_getElem?_lt {s : State} (hwf : s.wf) {a x : Nat}
    (hx : s.display_buffer[a]? = some x) : x < 256 :=
  hwf.2 x (List.getElem?_mem hx)

/-- Claim C7. Let `addr` be in 0..15, `m` a byte and `x = buffer[addr]` the prior byte.
`TM1640_SetBufferBit(addr, m, true)` stores `x | m` at `addr` and
`TM1640_SetBufferBit(addr, m, false)` stores `x & ~m` (8-bit complement, `255 - m`); both leave
every other buffer byte, brightness, on/off flag and the bus trace unchanged.  Bit `k` of the
stored byte is bit `k` of `x` wherever bit `k` of `m` is clear, and is 1 (set) respectively 0
(clear) wherever bit `k` of `m` is set; with `m = 0x40` only bit 6 can differ from `x`.  For an
address of 16 or more the state is returned unchanged. -/
theorem C7_setBufferBit_masked (s : State) (addr m x : Nat) (hwf : s.wf) (haddr : addr < 16)
    (hm : m < 256) (hx : s.display_buffer[addr]? = some x) :
    TM1640_SetBufferBit s addr m true =
      some { s with display_buffer := s.display_buffer.set addr (x ||| m) } ∧
    TM1640_SetBufferBit s addr m false =
      some { s with display_buffer := s.display_buffer.set addr (x &&& (255 - m)) } ∧
    (∀ a v, a ≠ addr → (s.display_buffer.set addr v)[a]? = s.display_buffer[a]?) ∧
    (∀ k, (x ||| m).testBit k = if m.testBit k then true else x.testBit k) ∧
    (∀ k, (x &&& (255 - m)).testBit k = if m.testBit k then false else x.testBit k) ∧
    (m = 0x40 → ∀ k, k ≠ 6 →
      (x ||| m).testBit k = x.testBit k ∧ (x &&& (255 - m)).testBit k = x.testBit k) ∧
    (∀ a mask flag, 16 ≤ a → TM1640_SetBufferBit s a mask flag = some s) := by
  have hx8 : x < 256 := wf_getElem?_lt hwf hx
  have hna : ¬ addr ≥ 16 := by omega
  have hlt : addr < s.display_buffer.length := by rw [hwf.1]; exact haddr
  have hset : ∀ k, (x ||| m).testBit k = if m.testBit k then true else x.testBit k := by
    intro k
    rw [Nat.testBit_or]
    cases x.testBit k <;> cases m.testBit k <;> rfl
  have hclr : ∀ k, (x &&& (255 - m)).testBit k = if m.testBit k then false else x.testBit k := by
    intro k
    rw [testBit_and_not_byte x m k hm]
    by_cases h8 : k < 8
    · cases x.testBit k <;> cases m.testBit k <;> simp [h8]
    · have hxk : x.testBit k = false :=
        Nat.testBit_lt_two_pow (lt_of_lt_of_le hx8 (by
          calc 256 = 2 ^ 8 := by norm_num
            _ ≤ 2 ^ k := Nat.pow_le_pow_right (by norm_num) (by omega)))
      simp [h8, hxk]
  refine ⟨?_, ?_, ?_, hset, hclr, ?_, ?_⟩
  · simp only [TM1640_SetBufferBit, TM1640_TOTAL_GRIDS, hna, if_false, if_true, bufLoad, hx,
      Option.bind_eq_bind, Option.some_bind, bufStore, hlt, u8_of_lt (or_byte_lt hx8 hm)]
  · simp only [TM1640_SetBufferBit, TM1640_TOTAL_GRIDS, hna, if_false, bufLoad, hx,
      Option.bind_eq_bind, Option.some_bind, bufStore, hlt, if_true, and_not_int_eq x m hm,
      Bool.false_eq_true]
  · intro a v ha
    exact List.getElem?_set_ne (fun h => ha h.symm)
  · intro hm40 k hk
    have hbit : m.testBit k = false := by
      rw [hm40, show (0x40 : Nat) = 2 ^ 6 by norm_num, Nat.testBit_two_pow]
      simp; omega
    simp [hset k, hclr k, hbit]
  · intro a mask flag ha
    have h : a ≥ TM1640_TOTAL_GRIDS := ha
    simp [TM1640_SetBufferBit, h]

theorem C7_setBufferBit_masked_witness :
    exState.wf ∧ 3 < 16 ∧ 0x40 < 256 ∧ exState.display_buffer[3]? = some 4 ∧
    (TM1640_SetBufferBit exState 3 0x40 true =
      some { exState with display_buffer := exState.display_buffer.set 3 (4 ||| 0x40) } ∧
    TM1640_SetBufferBit exState 3 0x40 false =
      some { exState with display_buffer := exState.display_buffer.set 3 (4 &&& (255 - 0x40)) } ∧
    (∀ a v, a ≠ 3 → (exState.display_buffer.set 3 v)[a]? = exState.display_buffer[a]?) ∧
    (∀ k, (4 ||| 0x40).testBit k = if (0x40).testBit k then true else (4).testBit k) ∧
    (∀ k, (4 &&& (255 - 0x40)).testBit k = if (0x40).testBit k then false else (4).testBit k) ∧
    (0x40 = 0x40 → ∀ k, k ≠ 6 →
      (4 ||| 0x40).testBit k = (4).testBit k ∧
      (4 &&& (255 - 0x40)).testBit k = (4).testBit k) ∧
    (∀ a mask flag, 16 ≤ a → TM1640_SetBufferBit exState a mask flag = some exState)) :=
  ⟨by decide, by decide, by decide, by decide,
    C7_setBufferBit_masked exState 3 0x40 4 (by decide) (by decide) (by decide) (by decide)⟩

/-- Claim C8. `TM1640_SetBuffer` and `TM1640_GetBuffer` are bounds-checked accessors of the
in-memory buffer.  For `addr` in 0..15, `TM1640_SetBuffer(addr, v)` changes only
`buffer[addr]` (brightness, on/off flag and bus trace are the same, so no signal event), after
it `TM1640_GetBuffer(addr)` returns `v` and `TM1640_GetBuffer(a)` returns its former value for
every other `a`.  For an address `far >= 16`, `TM1640_GetBuffer(far)` returns 0 and
`TM1640_SetBuffer(far, v)` returns the state unchanged. -/
theorem C8_buffer_accessors (s : State) (addr far v : Nat)
    (hs : s.display_buffer.length = 16) (haddr : addr < 16) (hfar : 16 ≤ far) :
    TM1640_SetBuffer s addr v =
      some { s with display_buffer := s.display_buffer.set addr v } ∧
    TM1640_GetBuffer { s with display_buffer := s.display_buffer.set addr v } addr = some v ∧
    (∀ a, a ≠ addr →
      TM1640_GetBuffer { s with display_buffer := s.display_buffer.set addr v } a =
        TM1640_GetBuffer s a) ∧
    TM1640_GetBuffer s far = some 0 ∧
    TM1640_SetBuffer s far v = some s := by
  have hna : ¬ addr ≥ 16 := by omega
  have hlt : addr < s.display_buffer.length := by omega
  have hfar' : far ≥ TM1640_TOTAL_GRIDS := hfar
  refine ⟨?_, ?_, ?_, ?_, ?_⟩
  · simp [TM1640_SetBuffer, TM1640_TOTAL_GRIDS, hna, bufStore, hlt]
  · simp [TM1640_GetBuffer, TM1640_TOTAL_GRIDS, hna, bufLoad, List.getElem?_set, hlt]
  · intro a ha
    have hne : addr ≠ a := fun h => ha h.symm
    by_cases h16 : a ≥ 16
    · simp [TM1640_GetBuffer, TM1640_TOTAL_GRIDS, h16]
    · simp [TM1640_GetBuffer, TM1640_TOTAL_GRIDS, h16, bufLoad, List.getElem?_set, hne]
  · simp [TM1640_GetBuffer, hfar']
  · simp [TM1640_SetBuffer, hfar']

theorem C8_buffer_accessors_witness :
    exState.display_buffer.length = 16 ∧ 7 < 16 ∧ 16 ≤ 200 ∧
    (TM1640_SetBuffer exState 7 0x3F =
      some { exState with display_buffer := exState.display_buffer.set 7 0x3F } ∧
    TM1640_GetBuffer { exState with display_buffer := exState.display_buffer.set 7 0x3F } 7 =
      some 0x3F ∧
    (∀ a, a ≠ 7 →
      TM1640_GetBuffer { exState with display_buffer := exState.display_buffer.set 7 0x3F } a =
        TM1640_GetBuffer exState a) ∧
    TM1640_GetBuffer exState 200 = some 0 ∧
    TM1640_SetBuffer exState 200 0x3F = some exState) :=
  ⟨by decide, by decide, by decide,
    C8_buffer_accessors exState 7 200 0x3F (by decide) (by decide) (by decide)⟩

/-- Claim C9. For every byte `b`, `TM1640_WriteByte(b)` changes nothing but the bus trace, to
which it appends exactly 8 six-event groups, the `k`-th (`k = 0..7`) being: clock low, delay,
data driven to bit `k` of `b` (high for 1, low for 0), delay, clock high, delay.  A receiver
that samples the data line at the rising clock edges of this trace, whatever the line levels
before it, obtains exactly 8 samples, and assembling them least-significant bit first gives
`b`. -/
theorem C9_writeByte_lsb_first (s : State) (b : Nat) (hb : b < 256) :
    TM1640_WriteByte s b = { s with
      bus := s.bus ++ (List.range 8).flatMap fun k =>
        [.CLK_LOW, .Delay, if b.testBit k then .DIO_HIGH else .DIO_LOW,
          .Delay, .CLK_HIGH, .Delay] } ∧
    ∀ clk dio : Bool,
      (sampleRising clk dio (emitted s (TM1640_WriteByte s b))).length = 8 ∧
      assembleLSB (sampleRising clk dio (emitted s (TM1640_WriteByte s b))) = b := by
  refine ⟨WriteByte_eq s b, fun clk dio => ?_⟩
  rw [WriteByte_eq, emitted_append, sampleRising_byteTrace, assembleLSB_testBit]
  exact ⟨by simp, Nat.mod_eq_of_lt hb⟩

theorem C9_writeByte_lsb_first_witness :
    0xA5 < 256 ∧
    (TM1640_WriteByte exState 0xA5 = { exState with
      bus := exState.bus ++ (List.range 8).flatMap fun k =>
        [.CLK_LOW, .Delay, if (0xA5).testBit k then .DIO_HIGH else .DIO_LOW,
          .Delay, .CLK_HIGH, .Delay] } ∧
    ∀ clk dio : Bool,
      (sampleRising clk dio (emitted exState (TM1640_WriteByte exState 0xA5))).length = 8 ∧
      assembleLSB (sampleRising clk dio (emitted exState (TM1640_WriteByte exState 0xA5))) =
        0xA5) :=
  ⟨by decide, C9_writeByte_lsb_first exState 0xA5 (by decide)⟩

/-- Claim C10. From every state `TM1640_Start` appends to the bus exactly
[data high, clock high, delay, data low, delay, clock low, delay] and `TM1640_Stop` exactly
[clock low, data low, delay, clock high, delay, data high, delay], each changing nothing else.
For every byte `b`, `TM1640_SendCommand(b)` changes nothing but the bus, and the events it
emits are those of `TM1640_Start`, then those of `TM1640_WriteByte(b)`, then those of
`TM1640_Stop`; a device decoding them sees one frame holding the single byte `b`. -/
theorem C10_start_stop_sendCommand (s : State) (b : Nat) (hb : b < 256) :
    TM1640_Start s = { s with
      bus := s.bus ++ [.DIO_HIGH, .CLK_HIGH, .Delay, .DIO_LOW, .Delay, .CLK_LOW, .Delay] } ∧
    TM1640_Stop s = { s with
      bus := s.bus ++ [.CLK_LOW, .DIO_LOW, .Delay, .CLK_HIGH, .Delay, .DIO_HIGH, .Delay] } ∧
    TM1640_SendCommand s b = { s with bus := s.bus ++ emitted s (TM1640_SendCommand s b) } ∧
    emitted s (TM1640_SendCommand s b) =
      emitted s (TM1640_Start s) ++ emitted s (TM1640_WriteByte s b) ++
        emitted s (TM1640_Stop s) ∧
    ∀ clk dio : Bool, decodeFrames clk dio (emitted s (TM1640_SendCommand s b)) = [[b]] := by
  refine ⟨Start_eq s, Stop_eq s, ?_, ?_, fun clk dio => ?_⟩
  · rw [SendCommand_eq, emitted_append]
  · rw [SendCommand_eq, Start_eq, WriteByte_eq, Stop_eq]
    simp only [emitted_append, frameTrace, List.flatMap_cons, List.flatMap_nil,
      List.append_nil]
  · rw [SendCommand_eq, emitted_append]
    apply decodeFrames_single
    intro x hx
    simp only [List.mem_singleton] at hx
    omega

theorem C10_start_stop_sendCommand_witness :
    0x8F < 256 ∧
    (TM1640_Start exState = { exState with
      bus := exState.bus ++
        [.DIO_HIGH, .CLK_HIGH, .Delay, .DIO_LOW, .Delay, .CLK_LOW, .Delay] } ∧
    TM1640_Stop exState = { exState with
      bus := exState.bus ++
        [.CLK_LOW, .DIO_LOW, .Delay, .CLK_HIGH, .Delay, .DIO_HIGH, .Delay] } ∧
    TM1640_SendCommand exState 0x8F = { exState with
      bus := exState.bus ++ emitted exState (TM1640_SendCommand exState 0x8F) } ∧
    emitted exState (TM1640_SendCommand exState 0x8F) =
      emitted exState (TM1640_Start exState) ++ emitted exState (TM1640_WriteByte exState 0x8F) ++
        emitted exState (TM1640_Stop exState) ∧
    ∀ clk dio : Bool,
      decodeFrames clk dio (emitted exState (TM1640_SendCommand exState 0x8F)) = [[0x8F]]) :=
  ⟨by decide, C10_start_stop_sendCommand exState 0x8F (by decide)⟩

/-! ## Closed forms of initialization, test and display control -/

theorem fill_all (buf : List Nat) (v : Nat) (h : buf.length = 16) :
    overwrite buf 0 (List.replicate 16 v) = List.replicate 16 v := by
  have hd : List.drop 16 buf = [] := List.drop_eq_nil_of_le (by rw [h])
  simp [overwrite, hd]

theorem UpdateDisplayControl_eq (s : State) :
    TM1640_UpdateDisplayControl s = { s with
      bus := s.bus ++
        frameTrace [TM1640_UpdateDisplayControl_cmd s.display_on s.current_brightness] } :=
  SendCommand_eq s _

theorem and_seven_of_le {b : Nat} (h : b ≤ 7) : b &&& 0x07 = b := by
  interval_cases b <;> decide

theorem UpdateDisplayControl_cmd_on (b : Nat) (h : b ≤ 7) :
    TM1640_UpdateDisplayControl_cmd true b = 0x88 ||| b := by
  interval_cases b <;> decide

theorem Init_eq (s : State) (hs : s.display_buffer.length = 16) :
    TM1640_Init s = some
      { display_buffer := List.replicate 16 0
        current_brightness := 7
        display_on := true
        bus := s.bus ++ [.CLK_HIGH, .DIO_HIGH] ++ frameTrace [0x40] ++ frameTrace [0x40] ++
          frameTrace (0xC0 :: List.replicate 16 0) ++ frameTrace [0x8F] } := by
  have hfill := forLoop_fill 0 16 0 (TM1640_DIO_HIGH (TM1640_CLK_HIGH s))
    (by simp [TM1640_DIO_HIGH, TM1640_CLK_HIGH, hs])
  have hbuf : (TM1640_DIO_HIGH (TM1640_CLK_HIGH s)).display_buffer = s.display_buffer := rfl
  rw [hbuf, fill_all _ _ hs] at hfill
  simp only [TM1640_Init, TM1640_TOTAL_GRIDS, hfill, Option.bind_eq_bind, Option.some_bind,
    SendCommand_eq, data_auto_inc_cmd]
  rw [Clear_eq _ (by simp)]
  simp only [Option.some_bind, Option.pure_def, UpdateDisplayControl_eq,
    TM1640_BRIGHTNESS_14_16, UpdateDisplayControl_cmd_on 7 (le_refl 7)]
  simp [TM1640_DIO_HIGH, TM1640_CLK_HIGH]

theorem Test_eq (s : State) (hs : s.display_buffer.length = 16) :
    TM1640_Test s = some { s with
      display_buffer := List.replicate 16 0xFF
      bus := s.bus ++ frameTrace [0x40] ++ frameTrace (0xC0 :: List.replicate 16 0xFF) } := by
  have hfill := forLoop_fill 0xFF 16 0 s (by rw [hs])
  rw [fill_all _ _ hs] at hfill
  have hflush := Flush_eq { s with display_buffer := List.replicate 16 0xFF }
    (List.length_replicate _ _)
  simp only [] at hflush
  calc TM1640_Test s
      = (forLoop (fillBody 0xFF) 16 0 s).bind TM1640_Flush := rfl
    _ = (some { s with display_buffer := List.replicate 16 0xFF }).bind TM1640_Flush := by
        rw [hfill]
    _ = TM1640_Flush { s with display_buffer := List.replicate 16 0xFF } :=
        Option.some_bind _ _
    _ = _ := hflush

theorem SetBrightness_eq (s : State) (brightness : Nat) :
    TM1640_SetBrightness s brightness = { s with
      current_brightness := brightness
      bus := s.bus ++ frameTrace [TM1640_UpdateDisplayControl_cmd s.display_on brightness] } := by
  simp only [TM1640_SetBrightness, UpdateDisplayControl_eq]

theorem DisplayOn_eq (s : State) (on_ : Bool) :
    TM1640_DisplayOn s on_ = { s with
      display_on := on_
      bus := s.bus ++ frameTrace [TM1640_UpdateDisplayControl_cmd on_ s.current_brightness] } := by
  simp only [TM1640_DisplayOn, UpdateDisplayControl_eq]

theorem emitted_self (s : State) : emitted s s = [] := by
  simp [emitted]

theorem emitted_append_assoc (s : State) (t u : List BusEvent) (buf : List Nat) (br : Nat)
    (o : Bool) :
    emitted s { display_buffer := buf, current_brightness := br, display_on := o,
                bus := s.bus ++ t ++ u } = t ++ u := by
  rw [List.append_assoc, emitted_append]

/-! ## Decoder and monitor over whole operations -/

theorem decoder_raise (d : Decoder) (hf : d.inFrame = false) :
    [BusEvent.CLK_HIGH, BusEvent.DIO_HIGH].foldl Decoder.step d =
      { d with clk := true, dio := true } := by
  obtain ⟨clk, dio, inFrame, bits, bytes, frames⟩ := d
  simp only at hf
  subst hf
  cases clk <;> cases dio <;> simp [Decoder.step]

theorem decodeFrames_raise_frames (clk dio : Bool) (fs : List (List Nat))
    (hfs : ∀ f ∈ fs, ∀ b ∈ f, b < 256) :
    decodeFrames clk dio ([.CLK_HIGH, .DIO_HIGH] ++ fs.flatMap frameTrace) = fs := by
  have h := decodeFrames_frames true true fs hfs
  rw [decodeFrames] at h ⊢
  rw [List.foldl_append, decoder_raise _ rfl]
  exact h

theorem Monitor.run_append (t u : List BusEvent) : ∀ m : Monitor,
    m.run (t ++ u) = (m.run t).bind fun m' => m'.run u := by
  induction t with
  | nil => intro m; simp [Monitor.run]
  | cons e t ih =>
    intro m
    simp only [List.cons_append, Monitor.run]
    cases m.step e with
    | none => simp
    | some m' => simp [ih m']

theorem monitor_start (n k : Nat) :
    Monitor.run { clk := true, dio := true, inFrame := false, starts := n, stops := k }
        startTrace =
      some { clk := false, dio := false, inFrame := true, starts := n + 1, stops := k } := by
  simp [startTrace, Monitor.run, Monitor.step]

theorem monitor_bit (m : Monitor) (bit : Bool) :
    m.run (bitTrace bit) = some { m with clk := true, dio := bit } := by
  cases bit <;> simp [bitTrace, Monitor.run, Monitor.step]

theorem monitor_bits (bits : List Bool) : ∀ m : Monitor,
    ∃ clk dio, m.run (bits.flatMap bitTrace) = some { m with clk := clk, dio := dio } := by
  induction bits with
  | nil => intro m; exact ⟨m.clk, m.dio, by simp [Monitor.run]⟩
  | cons bit bits ih =>
    intro m
    obtain ⟨clk, dio, h⟩ := ih { m with clk := true, dio := bit }
    refine ⟨clk, dio, ?_⟩
    rw [List.flatMap_cons, Monitor.run_append, monitor_bit]
    simpa using h

theorem monitor_bytes (bs : List Nat) : ∀ m : Monitor,
    ∃ clk dio, m.run (bs.flatMap byteTrace) = some { m with clk := clk, dio := dio } := by
  induction bs with
  | nil => intro m; exact ⟨m.clk, m.dio, by simp [Monitor.run]⟩
  | cons b bs ih =>
    intro m
    obtain ⟨c1, d1, h1⟩ := monitor_bits ((List.range 8).map b.testBit) m
    obtain ⟨c2, d2, h2⟩ := ih { m with clk := c1, dio := d1 }
    refine ⟨c2, d2, ?_⟩
    rw [List.flatMap_cons, Monitor.run_append, byteTrace_eq_bits, h1]
    simpa using h2

theorem monitor_stop (clk dio : Bool) (n k : Nat) :
    Monitor.run { clk := clk, dio := dio, inFrame := true, starts := n, stops := k }
        stopTrace =
      some { clk := true, dio := true, inFrame := false, starts := n, stops := k + 1 } := by
  simp [stopTrace, Monitor.run, Monitor.step]

theorem monitor_frame (bs : List Nat) (n : Nat) :
    (Monitor.idle n).run (frameTrace bs) = some (Monitor.idle (n + 1)) := by
  obtain ⟨clk, dio, h⟩ := monitor_bytes bs
    { clk := false, dio := false, inFrame := true, starts := n + 1, stops := n }
  rw [frameTrace, Monitor.run_append, Monitor.run_append, Monitor.idle, monitor_start]
  simp only [Option.some_bind, h, monitor_stop, Monitor.idle]

theorem monitor_frames (fs : List (List Nat)) : ∀ n : Nat,
    (Monitor.idle n).run (fs.flatMap frameTrace) = some (Monitor.idle (n + fs.length)) := by
  induction fs with
  | nil => intro n; simp [Monitor.run]
  | cons f fs ih =>
    intro n
    rw [List.flatMap_cons, Monitor.run_append, monitor_frame, Option.some_bind, ih]
    simp [Nat.add_assoc, Nat.add_comm 1]

theorem wellFramed_nil : wellFramed [] 0 := by
  simp [wellFramed, Monitor.run]

theorem wellFramed_single (f : List Nat) : wellFramed (frameTrace f) 1 := by
  have h := monitor_frame f 0
  simpa [wellFramed] using h

theorem wellFramed_pair (f g : List Nat) : wellFramed (frameTrace f ++ frameTrace g) 2 := by
  have h := monitor_frames [f, g] 0
  simpa [wellFramed] using h

theorem stable_bit (bit : Bool) (rest : List BusEvent) (clk dio : Bool) :
    dataStableWhileClockHigh clk dio (bitTrace bit ++ rest) =
      dataStableWhileClockHigh true bit rest := by
  cases bit <;> simp [bitTrace, dataStableWhileClockHigh]

theorem stable_bits (bits : List Bool) : ∀ clk dio : Bool,
    dataStableWhileClockHigh clk dio (bits.flatMap bitTrace) = true := by
  induction bits with
  | nil => intro clk dio; simp [dataStableWhileClockHigh]
  | cons bit bits ih =>
    intro clk dio
    rw [List.flatMap_cons, stable_bit, ih]

/-! ## Pattern tables -/

theorem code_values :
    code '0' = 48 ∧ code '9' = 57 ∧ code 'A' = 65 ∧ code 'Z' = 90 ∧ code 'a' = 97 ∧
    code 'z' = 122 ∧ code '-' = 45 ∧ code '_' = 95 ∧ code '!' = 33 := by decide

theorem tableLoad_natCast (table : List Nat) (i : Nat) : tableLoad table (i : Int) = table[i]? := by
  simp [tableLoad]

/-- Claim C11. For every character value (any integer, so every signed or unsigned 8-bit
`char`): for `d` in '0'..'9', `TM1640_GetCharPattern(d)` is `TM1640_GetDigitPattern(d - '0')`;
for `u` in 'A'..'Z' it is the letter-table entry at index `u - 'A'`, and for `l` in 'a'..'z'
the entry at index `l - 'a'`, so the lowercase form `u + 32` of `u` gives the same pattern as
`u`; '-' gives 0x40 (segment G only), '_' gives 0x08 (segment D only); every other character
`o` gives 0x00, for instance '!'.  Every table access is within the table. -/
theorem C11_charPattern (d u l o : Int)
    (hd : code '0' ≤ d ∧ d ≤ code '9') (hu : code 'A' ≤ u ∧ u ≤ code 'Z')
    (hl : code 'a' ≤ l ∧ l ≤ code 'z')
    (ho : ¬ (code '0' ≤ o ∧ o ≤ code '9') ∧ ¬ (code 'A' ≤ o ∧ o ≤ code 'Z') ∧
      ¬ (code 'a' ≤ o ∧ o ≤ code 'z') ∧ o ≠ code '-' ∧ o ≠ code '_') :
    TM1640_GetCharPattern d = TM1640_GetDigitPattern (u8 (d - code '0').toNat) ∧
    (TM1640_GetCharPattern d).isSome = true ∧
    TM1640_GetCharPattern u = char_patterns[(u - code 'A').toNat]? ∧
    (TM1640_GetCharPattern u).isSome = true ∧
    TM1640_GetCharPattern l = char_patterns[(l - code 'a').toNat]? ∧
    (TM1640_GetCharPattern l).isSome = true ∧
    TM1640_GetCharPattern (u + 32) = TM1640_GetCharPattern u ∧
    TM1640_GetCharPattern (code '-') = some TM1640_SEG_G ∧
    TM1640_GetCharPattern (code '_') = some TM1640_SEG_D ∧
    TM1640_GetCharPattern o = some 0x00 ∧
    TM1640_GetCharPattern (code '!') = some 0x00 := by
  obtain ⟨c0, c9, cA, cZ, ca, cz, cm, cu, _⟩ := code_values
  rw [c0, c9] at hd
  rw [cA, cZ] at hu
  rw [ca, cz] at hl
  rw [c0, c9, cA, cZ, ca, cz, cm, cu] at ho
  obtain ⟨hd1, hd2⟩ := hd
  obtain ⟨hu1, hu2⟩ := hu
  obtain ⟨hl1, hl2⟩ := hl
  obtain ⟨ho1, ho2, ho3, ho4, ho5⟩ := ho
  refine ⟨?_, ?_, ?_, ?_, ?_, ?_, ?_, by decide, by decide, ?_, by decide⟩
  · interval_cases d <;> decide
  · interval_cases d <;> decide
  · interval_cases u <;> decide
  · interval_cases u <;> decide
  · interval_cases l <;> decide
  · interval_cases l <;> decide
  · interval_cases u <;> decide
  · unfold TM1640_GetCharPattern
    rw [c0, c9, cA, cZ, ca, cz, cm, cu]
    have g1 : ¬ (o ≥ 48 ∧ o ≤ 57) := fun h => ho1 ⟨h.1, h.2⟩
    have g2 : ¬ (o ≥ 65 ∧ o ≤ 90) := fun h => ho2 ⟨h.1, h.2⟩
    have g3 : ¬ (o ≥ 97 ∧ o ≤ 122) := fun h => ho3 ⟨h.1, h.2⟩
    rw [if_neg g1, if_neg g2, if_neg g3, if_neg ho4, if_neg ho5]

theorem C11_charPattern_witness :
    (code '0' ≤ 56 ∧ (56 : Int) ≤ code '9') ∧ (code 'A' ≤ 72 ∧ (72 : Int) ≤ code 'Z') ∧
    (code 'a' ≤ 119 ∧ (119 : Int) ≤ code 'z') ∧
    (¬ (code '0' ≤ -3 ∧ (-3 : Int) ≤ code '9') ∧ ¬ (code 'A' ≤ -3 ∧ (-3 : Int) ≤ code 'Z') ∧
      ¬ (code 'a' ≤ -3 ∧ (-3 : Int) ≤ code 'z') ∧ (-3 : Int) ≠ code '-' ∧
      (-3 : Int) ≠ code '_') ∧
    (TM1640_GetCharPattern 56 = TM1640_GetDigitPattern (u8 ((56 : Int) - code '0').toNat) ∧
    (TM1640_GetCharPattern 56).isSome = true ∧
    TM1640_GetCharPattern 72 = char_patterns[((72 : Int) - code 'A').toNat]? ∧
    (TM1640_GetCharPattern 72).isSome = true ∧
    TM1640_GetCharPattern 119 = char_patterns[((119 : Int) - code 'a').toNat]? ∧
    (TM1640_GetCharPattern 119).isSome = true ∧
    TM1640_GetCharPattern (72 + 32) = TM1640_GetCharPattern 72 ∧
    TM1640_GetCharPattern (code '-') = some TM1640_SEG_G ∧
    TM1640_GetCharPattern (code '_') = some TM1640_SEG_D ∧
    TM1640_GetCharPattern (-3) = some 0x00 ∧
    TM1640_GetCharPattern (code '!') = some 0x00) :=
  ⟨by decide, by decide, by decide, by decide,
    C11_charPattern 56 72 119 (-3) (by decide) (by decide) (by decide) (by decide)⟩

/-- Claim C12. For every `d`, `TM1640_GetDigitPattern(d)` is the digit-table entry at index
`min(d, 9)`; every value of 10 or more gives 0x6F, the entry of 9; and the entries of 0..9 are
the OR of the documented segment bits (bit 0 = segment A, ..., bit 6 = segment G):
0 = a,b,c,d,e,f; 1 = b,c; 2 = a,b,d,e,g; 3 = a,b,c,d,g; 4 = b,c,f,g; 5 = a,c,d,f,g;
6 = a,c,d,e,f,g; 7 = a,b,c; 8 = a,b,c,d,e,f,g; 9 = a,b,c,d,f,g. -/
theorem C12_digitPattern (d : Nat) :
    TM1640_GetDigitPattern d = digit_patterns[min d 9]? ∧
    TM1640_GetDigitPattern (d + 10) = some 0x6F ∧
    TM1640_GetDigitPattern 0 = some (TM1640_SEG_A ||| TM1640_SEG_B ||| TM1640_SEG_C |||
      TM1640_SEG_D ||| TM1640_SEG_E ||| TM1640_SEG_F) ∧
    TM1640_GetDigitPattern 0 = some 0x3F ∧
    TM1640_GetDigitPattern 1 = some (TM1640_SEG_B ||| TM1640_SEG_C) ∧
    TM1640_GetDigitPattern 1 = some 0x06 ∧
    TM1640_GetDigitPattern 2 = some (TM1640_SEG_A ||| TM1640_SEG_B ||| TM1640_SEG_D |||
      TM1640_SEG_E ||| TM1640_SEG_G) ∧
    TM1640_GetDigitPattern 2 = some 0x5B ∧
    TM1640_GetDigitPattern 3 = some (TM1640_SEG_A ||| TM1640_SEG_B ||| TM1640_SEG_C |||
      TM1640_SEG_D ||| TM1640_SEG_G) ∧
    TM1640_GetDigitPattern 3 = some 0x4F ∧
    TM1640_GetDigitPattern 4 = some (TM1640_SEG_B ||| TM1640_SEG_C ||| TM1640_SEG_F |||
      TM1640_SEG_G) ∧
    TM1640_GetDigitPattern 4 = some 0x66 ∧
    TM1640_GetDigitPattern 5 = some (TM1640_SEG_A ||| TM1640_SEG_C ||| TM1640_SEG_D |||
      TM1640_SEG_F ||| TM1640_SEG_G) ∧
    TM1640_GetDigitPattern 5 = some 0x6D ∧
    TM1640_GetDigitPattern 6 = some (TM1640_SEG_A ||| TM1640_SEG_C ||| TM1640_SEG_D |||
      TM1640_SEG_E ||| TM1640_SEG_F ||| TM1640_SEG_G) ∧
    TM1640_GetDigitPattern 6 = some 0x7D ∧
    TM1640_GetDigitPattern 7 = some (TM1640_SEG_A ||| TM1640_SEG_B ||| TM1640_SEG_C) ∧
    TM1640_GetDigitPattern 7 = some 0x07 ∧
    TM1640_GetDigitPattern 8 = some (TM1640_SEG_A ||| TM1640_SEG_B ||| TM1640_SEG_C |||
      TM1640_SEG_D ||| TM1640_SEG_E ||| TM1640_SEG_F ||| TM1640_SEG_G) ∧
    TM1640_GetDigitPattern 8 = some 0x7F ∧
    TM1640_GetDigitPattern 9 = some (TM1640_SEG_A ||| TM1640_SEG_B ||| TM1640_SEG_C |||
      TM1640_SEG_D ||| TM1640_SEG_F ||| TM1640_SEG_G) ∧
    TM1640_GetDigitPattern 9 = some 0x6F := by
  refine ⟨?_, ?_, by decide⟩
  · unfold TM1640_GetDigitPattern
    by_cases h : d > 9
    · have hm : min d 9 = 9 := by omega
      simp only [h, if_true, hm]
      decide
    · have hm : min d 9 = d := by omega
      simp only [h, if_false, hm, tableLoad_natCast]
  · unfold TM1640_GetDigitPattern
    have h : d + 10 > 9 := by omega
    simp only [h, if_true]
    decide

/-- Claim C13. `TM1640_GetHexPattern(h)` is `TM1640_GetDigitPattern(h)` for `h <= 9`, the
hex-letter table entry at index `h - 10` for `10 <= h <= 15` (A = 0x77, b = 0x7C, C = 0x39,
d = 0x5E, E = 0x79, F = 0x71), and 0x00 (blank) for `h > 15`. -/
theorem C13_hexPattern (lo mid hi : Nat) (hlo : lo ≤ 9) (hmid : 10 ≤ mid ∧ mid ≤ 15)
    (hhi : 15 < hi) :
    TM1640_GetHexPattern lo = TM1640_GetDigitPattern lo ∧
    (TM1640_GetHexPattern lo).isSome = true ∧
    TM1640_GetHexPattern mid = hex_patterns[mid - 10]? ∧
    (TM1640_GetHexPattern mid).isSome = true ∧
    TM1640_GetHexPattern hi = some 0x00 ∧
    TM1640_GetHexPattern 10 = some 0x77 ∧
    TM1640_GetHexPattern 11 = some 0x7C ∧
    TM1640_GetHexPattern 12 = some 0x39 ∧
    TM1640_GetHexPattern 13 = some 0x5E ∧
    TM1640_GetHexPattern 14 = some 0x79 ∧
    TM1640_GetHexPattern 15 = some 0x71 := by
  obtain ⟨hm1, hm2⟩ := hmid
  refine ⟨?_, ?_, ?_, ?_, ?_, by decide⟩
  · interval_cases lo <;> decide
  · interval_cases lo <;> decide
  · interval_cases mid <;> decide
  · interval_cases mid <;> decide
  · have h1 : ¬ hi < 10 := by omega
    have h2 : ¬ hi < 16 := by omega
    simp only [TM1640_GetHexPattern, h1, h2, if_false]

theorem C13_hexPattern_witness :
    4 ≤ 9 ∧ (10 ≤ 13 ∧ 13 ≤ 15) ∧ 15 < 16 ∧
    (TM1640_GetHexPattern 4 = TM1640_GetDigitPattern 4 ∧
    (TM1640_GetHexPattern 4).isSome = true ∧
    TM1640_GetHexPattern 13 = hex_patterns[13 - 10]? ∧
    (TM1640_GetHexPattern 13).isSome = true ∧
    TM1640_GetHexPattern 16 = some 0x00 ∧
    TM1640_GetHexPattern 10 = some 0x77 ∧
    TM1640_GetHexPattern 11 = some 0x7C ∧
    TM1640_GetHexPattern 12 = some 0x39 ∧
    TM1640_GetHexPattern 13 = some 0x5E ∧
    TM1640_GetHexPattern 14 = some 0x79 ∧
    TM1640_GetHexPattern 15 = some 0x71) :=
  ⟨by decide, by decide, by decide, C13_hexPattern 4 13 16 (by decide) (by decide) (by decide)⟩

theorem drop_take_overwrite (buf : List Nat) (pos : Nat) (vals : List Nat)
    (h : pos ≤ buf.length) :
    ((overwrite buf pos vals).drop pos).take vals.length = vals := by
  have hlen : (List.take pos buf).length = pos := by simp; omega
  have hd : List.drop pos (List.take pos buf) = [] := List.drop_eq_nil_of_le (by rw [hlen])
  rw [overwrite, List.append_assoc, List.drop_append_eq_append_drop, hlen, hd]
  simp

theorem address_byte_bits (addr : Nat) (h : addr < 16) :
    0xC0 ≤ 0xC0 ||| addr ∧ 0xC0 ||| addr ≤ 0xCF ∧ (0xC0 ||| addr) &&& 0xF0 = 0xC0 ∧
    (0xC0 ||| addr) &&& 0x0F = addr := by
  interval_cases addr <;> decide

/-! ## Initialization and display control -/

/-- Counterexample to claim C14 as stated: from the example state, a device decoding the
events of `TM1640_Init` sees four frames, the auto-increment data command `[0x40]` twice (once
sent by `TM1640_Init` itself and once by the `TM1640_Clear` it calls), and not the three
frames of the claim. -/
theorem C14_init_frames_counterexample :
    ∃ s', TM1640_Init exState = some s' ∧
      decodeFrames true true (emitted exState s') =
        [[0x40], [0x40], 0xC0 :: List.replicate 16 0, [0x8F]] ∧
      decodeFrames true true (emitted exState s') ≠
        [[0x40], 0xC0 :: List.replicate 16 0, [0x8F]] := by
  have hdec : decodeFrames true true (emitted exState
      { display_buffer := List.replicate 16 0, current_brightness := 7, display_on := true,
        bus := exState.bus ++ [.CLK_HIGH, .DIO_HIGH] ++ frameTrace [0x40] ++ frameTrace [0x40] ++
          frameTrace (0xC0 :: List.replicate 16 0) ++ frameTrace [0x8F] }) =
      [[0x40], [0x40], 0xC0 :: List.replicate 16 0, [0x8F]] := by
    have h := decodeFrames_raise_frames true true
      [[0x40], [0x40], 0xC0 :: List.replicate 16 0, [0x8F]] (by decide)
    simp only [List.append_assoc, emitted_append]
    simpa using h
  refine ⟨_, Init_eq exState rfl, hdec, ?_⟩
  rw [hdec]
  decide

/-- Claim C14, amended. From every prior state (16-byte buffer), `TM1640_Init` returns; it
first drives clock and data high and then appends exactly four frames, which a device decodes
in this order: `[0x40]` (auto-increment data command), `[0x40]` again (sent by the
`TM1640_Clear` that `TM1640_Init` calls), `0xC0` followed by 16 bytes `0x00` (address 0), and
the display-control frame `[0x8F]`; there is no other frame. -/
theorem C14_init_frames (s : State) (hs : s.display_buffer.length = 16) :
    ∃ s', TM1640_Init s = some s' ∧
      emitted s s' = [.CLK_HIGH, .DIO_HIGH] ++ frameTrace [0x40] ++ frameTrace [0x40] ++
        frameTrace (0xC0 :: List.replicate 16 0) ++ frameTrace [0x8F] ∧
      ∀ clk dio : Bool, decodeFrames clk dio (emitted s s') =
        [[0x40], [0x40], 0xC0 :: List.replicate 16 0, [0x8F]] := by
  refine ⟨_, Init_eq s hs, ?_, fun clk dio => ?_⟩
  · simp only [List.append_assoc, emitted_append]
  · have h := decodeFrames_raise_frames clk dio
      [[0x40], [0x40], 0xC0 :: List.replicate 16 0, [0x8F]] (by decide)
    simp only [List.append_assoc, emitted_append]
    simpa using h

theorem C14_init_frames_witness :
    exState.display_buffer.length = 16 ∧
    ∃ s', TM1640_Init exState = some s' ∧
      emitted exState s' = [.CLK_HIGH, .DIO_HIGH] ++ frameTrace [0x40] ++ frameTrace [0x40] ++
        frameTrace (0xC0 :: List.replicate 16 0) ++ frameTrace [0x8F] ∧
      ∀ clk dio : Bool, decodeFrames clk dio (emitted exState s') =
        [[0x40], [0x40], 0xC0 :: List.replicate 16 0, [0x8F]] :=
  ⟨by decide, C14_init_frames exState (by decide)⟩

/-- Claim C15. For every state with brightness in 0..7 and every level `b` in 0..7,
`TM1640_SetBrightness(b)` sets the brightness to `b` and leaves the on/off flag and the buffer
unchanged; for every `on`, `TM1640_DisplayOn(on)` sets the on/off flag and leaves brightness
and buffer unchanged.  Each call appends exactly one single-byte frame, whose byte encodes the
new combined state: `0x88 | brightness` when on, `0x80` when off.  A brightness set while the
display is off is kept, and a later `TM1640_DisplayOn(true)` sends `0x88 | b`. -/
theorem C15_brightness_and_display (s : State) (b : Nat) (on_ : Bool) (hb : b ≤ 7)
    (hs : s.current_brightness ≤ 7) :
    TM1640_SetBrightness s b = { s with
      current_brightness := b
      bus := s.bus ++ frameTrace [if s.display_on then 0x88 ||| b else 0x80] } ∧
    TM1640_DisplayOn s on_ = { s with
      display_on := on_
      bus := s.bus ++ frameTrace [if on_ then 0x88 ||| s.current_brightness else 0x80] } ∧
    (∀ clk dio : Bool, decodeFrames clk dio (emitted s (TM1640_SetBrightness s b)) =
      [[if s.display_on then 0x88 ||| b else 0x80]]) ∧
    (∀ clk dio : Bool, decodeFrames clk dio (emitted s (TM1640_DisplayOn s on_)) =
      [[if on_ then 0x88 ||| s.current_brightness else 0x80]]) ∧
    (TM1640_SetBrightness (TM1640_DisplayOn s false) b).current_brightness = b ∧
    (TM1640_SetBrightness (TM1640_DisplayOn s false) b).display_on = false ∧
    ∀ clk dio : Bool,
      decodeFrames clk dio
        (emitted (TM1640_SetBrightness (TM1640_DisplayOn s false) b)
          (TM1640_DisplayOn (TM1640_SetBrightness (TM1640_DisplayOn s false) b) true)) =
        [[0x88 ||| b]] := by
  have hcmd : ∀ (o : Bool) (x : Nat), x ≤ 7 →
      TM1640_UpdateDisplayControl_cmd o x = if o then 0x88 ||| x else 0x80 := by
    intro o x hx
    cases o
    · rfl
    · exact UpdateDisplayControl_cmd_on x hx
  have hlt : ∀ (o : Bool) (x : Nat), x ≤ 7 → ∀ y ∈ [if o then 0x88 ||| x else 0x80], y < 256 := by
    intro o x hx y hy
    simp only [List.mem_singleton] at hy
    rw [hy, ← hcmd o x hx]
    exact UpdateDisplayControl_cmd_lt o x
  refine ⟨?_, ?_, fun clk dio => ?_, fun clk dio => ?_, ?_, ?_, fun clk dio => ?_⟩
  · rw [SetBrightness_eq, hcmd _ _ hb]
  · rw [DisplayOn_eq, hcmd _ _ hs]
  · rw [SetBrightness_eq, hcmd _ _ hb, emitted_append]
    exact decodeFrames_single clk dio _ (hlt _ _ hb)
  · rw [DisplayOn_eq, hcmd _ _ hs, emitted_append]
    exact decodeFrames_single clk dio _ (hlt _ _ hs)
  · rw [SetBrightness_eq]
  · rw [SetBrightness_eq, DisplayOn_eq]
  · have h1 : (TM1640_SetBrightness (TM1640_DisplayOn s false) b).current_brightness = b := by
      rw [SetBrightness_eq]
    generalize TM1640_SetBrightness (TM1640_DisplayOn s false) b = s1 at h1 ⊢
    rw [DisplayOn_eq, h1, hcmd true b hb, emitted_append]
    exact decodeFrames_single clk dio _ (hlt true b hb)

theorem C15_brightness_and_display_witness :
    5 ≤ 7 ∧ exState.current_brightness ≤ 7 ∧
    (TM1640_SetBrightness exState 5 = { exState with
      current_brightness := 5
      bus := exState.bus ++ frameTrace [if exState.display_on then 0x88 ||| 5 else 0x80] } ∧
    TM1640_DisplayOn exState false = { exState with
      display_on := false
      bus := exState.bus ++
        frameTrace [if false then 0x88 ||| exState.current_brightness else 0x80] } ∧
    (∀ clk dio : Bool, decodeFrames clk dio (emitted exState (TM1640_SetBrightness exState 5)) =
      [[if exState.display_on then 0x88 ||| 5 else 0x80]]) ∧
    (∀ clk dio : Bool, decodeFrames clk dio (emitted exState (TM1640_DisplayOn exState false)) =
      [[if false then 0x88 ||| exState.current_brightness else 0x80]]) ∧
    (TM1640_SetBrightness (TM1640_DisplayOn exState false) 5).current_brightness = 5 ∧
    (TM1640_SetBrightness (TM1640_DisplayOn exState false) 5).display_on = false ∧
    ∀ clk dio : Bool,
      decodeFrames clk dio
        (emitted (TM1640_SetBrightness (TM1640_DisplayOn exState false) 5)
          (TM1640_DisplayOn (TM1640_SetBrightness (TM1640_DisplayOn exState false) 5) true)) =
        [[0x88 ||| 5]]) :=
  ⟨by decide, by decide, C15_brightness_and_display exState 5 false (by decide) (by decide)⟩

/-- Claim C16, evaluated on the code. The GPIO macros are selected by
`#ifdef TM1640_USE_BUFFER`, so the value the macro is defined with is ignored: with
`TM1640_USE_BUFFER` defined as 0 driving a line high still writes `GPIO_PIN_RESET` and driving
it low writes `GPIO_PIN_SET`, exactly as with the value 1.  Only when the macro is not defined
at all does driving high write `GPIO_PIN_SET` and driving low `GPIO_PIN_RESET`. -/
theorem C16_ifdef_ignores_value :
    gpioMacro (some 0) .CLK_HIGH = some (.TM1640_CLK_Pin, .GPIO_PIN_RESET) ∧
    gpioMacro (some 0) .CLK_LOW = some (.TM1640_CLK_Pin, .GPIO_PIN_SET) ∧
    gpioMacro (some 0) .DIO_HIGH = some (.TM1640_DIO_Pin, .GPIO_PIN_RESET) ∧
    gpioMacro (some 0) .DIO_LOW = some (.TM1640_DIO_Pin, .GPIO_PIN_SET) ∧
    (∀ (v : Nat) (e : BusEvent), gpioMacro (some v) e = gpioMacro (some 1) e) ∧
    gpioMacro (some 1) .CLK_HIGH = some (.TM1640_CLK_Pin, .GPIO_PIN_RESET) ∧
    gpioMacro (some 1) .CLK_LOW = some (.TM1640_CLK_Pin, .GPIO_PIN_SET) ∧
    gpioMacro (some 1) .DIO_HIGH = some (.TM1640_DIO_Pin, .GPIO_PIN_RESET) ∧
    gpioMacro (some 1) .DIO_LOW = some (.TM1640_DIO_Pin, .GPIO_PIN_SET) ∧
    gpioMacro none .CLK_HIGH = some (.TM1640_CLK_Pin, .GPIO_PIN_SET) ∧
    gpioMacro none .CLK_LOW = some (.TM1640_CLK_Pin, .GPIO_PIN_RESET) ∧
    gpioMacro none .DIO_HIGH = some (.TM1640_DIO_Pin, .GPIO_PIN_SET) ∧
    gpioMacro none .DIO_LOW = some (.TM1640_DIO_Pin, .GPIO_PIN_RESET) := by
  refine ⟨rfl, rfl, rfl, rfl, fun v e => ?_, rfl, rfl, rfl, rfl, rfl, rfl, rfl, rfl⟩
  cases e <;> rfl

/-! ## Frames of the write operations -/

/-- Claim C17. For every address `addr` in 0..15 and every byte `v`,
`TM1640_WriteGrid(addr, v)` returns and appends to the bus exactly two frames: the single-byte
frame `[0x44]` (fixed-address data command), then one frame of exactly two bytes
`[0xC0 | addr, v]`.  The address byte lies in 0xC0..0xCF: its high nibble is the command
`0xC0` and its low nibble is `addr`. -/
theorem C17_writeGrid_frames (s : State) (addr v : Nat) (hs : s.display_buffer.length = 16)
    (haddr : addr < 16) (hv : v < 256) :
    ∃ s', TM1640_WriteGrid s addr v = some s' ∧
      emitted s s' = frameTrace [0x44] ++ frameTrace [0xC0 ||| addr, v] ∧
      (∀ clk dio : Bool, decodeFrames clk dio (emitted s s') = [[0x44], [0xC0 ||| addr, v]]) ∧
      0xC0 ≤ 0xC0 ||| addr ∧ 0xC0 ||| addr ≤ 0xCF ∧ (0xC0 ||| addr) &&& 0xF0 = 0xC0 ∧
      (0xC0 ||| addr) &&& 0x0F = addr := by
  refine ⟨_, WriteGrid_eq s addr v haddr hs, ?_, fun clk dio => ?_, address_byte_bits addr haddr⟩
  · rw [emitted_append_assoc]
  · rw [emitted_append_assoc]
    apply decodeFrames_pair
    · intro b hb
      simp only [List.mem_singleton] at hb
      omega
    · intro b hb
      simp only [List.mem_cons, List.mem_singleton, List.not_mem_nil, or_false] at hb
      rcases hb with rfl | rfl
      · exact address_byte_lt addr haddr
      · exact hv

theorem C17_writeGrid_frames_witness :
    exState.display_buffer.length = 16 ∧ 9 < 16 ∧ 0x6D < 256 ∧
    ∃ s', TM1640_WriteGrid exState 9 0x6D = some s' ∧
      emitted exState s' = frameTrace [0x44] ++ frameTrace [0xC0 ||| 9, 0x6D] ∧
      (∀ clk dio : Bool,
        decodeFrames clk dio (emitted exState s') = [[0x44], [0xC0 ||| 9, 0x6D]]) ∧
      0xC0 ≤ 0xC0 ||| 9 ∧ 0xC0 ||| 9 ≤ 0xCF ∧ (0xC0 ||| 9) &&& 0xF0 = 0xC0 ∧
      (0xC0 ||| 9) &&& 0x0F = 9 :=
  ⟨by decide, by decide, by decide,
    C17_writeGrid_frames exState 9 0x6D (by decide) (by decide) (by decide)⟩

/-- Claim C18. For every `start` in 0..15, every `length` and every byte array `data` holding
at least `n = min(length, 16 - start)` bytes, `TM1640_WriteGridArray(start, data, length)`
returns and appends to the bus exactly two frames: `[0x40]` (auto-increment data command),
then one frame `[0xC0 | start, data[0], ..., data[n-1]]` with exactly `n` data bytes (the
address byte alone when `n = 0`).  The transmitted data bytes are `buffer[start .. start+n)` as
it stands after the call. -/
theorem C18_writeGridArray_frames (s : State) (start length : Nat) (data : List Nat)
    (hs : s.display_buffer.length = 16) (hstart : start < 16)
    (hdata : min length (16 - start) ≤ data.length) (hbytes : ∀ x ∈ data, x < 256) :
    ∃ s', TM1640_WriteGridArray s start data length = some s' ∧
      emitted s s' = frameTrace [0x40] ++
        frameTrace ((0xC0 ||| start) :: data.take (min length (16 - start))) ∧
      (data.take (min length (16 - start))).length = min length (16 - start) ∧
      (∀ clk dio : Bool, decodeFrames clk dio (emitted s s') =
        [[0x40], (0xC0 ||| start) :: data.take (min length (16 - start))]) ∧
      (s'.display_buffer.drop start).take (min length (16 - start)) =
        data.take (min length (16 - start)) := by
  have hlen : (data.take (min length (16 - start))).length = min length (16 - start) := by
    simp; omega
  refine ⟨_, WriteGridArray_eq s start data length hstart hs hdata, ?_, hlen,
    fun clk dio => ?_, ?_⟩
  · rw [emitted_append_assoc]
  · rw [emitted_append_assoc]
    apply decodeFrames_pair
    · intro b hb
      simp only [List.mem_singleton] at hb
      omega
    · intro b hb
      simp only [List.mem_cons] at hb
      rcases hb with rfl | hb
      · exact address_byte_lt start hstart
      · exact hbytes b (List.mem_of_mem_take hb)
  · have h := drop_take_overwrite s.display_buffer start
      (data.take (min length (16 - start))) (by omega)
    rw [hlen] at h
    exact h

theorem C18_writeGridArray_frames_witness :
    exState.display_buffer.length = 16 ∧ 10 < 16 ∧
    min 250 (16 - 10) ≤ [21, 22, 23, 24, 25, 26, 27].length ∧
    (∀ x ∈ [21, 22, 23, 24, 25, 26, 27], x < 256) ∧
    ∃ s', TM1640_WriteGridArray exState 10 [21, 22, 23, 24, 25, 26, 27] 250 = some s' ∧
      emitted exState s' = frameTrace [0x40] ++
        frameTrace ((0xC0 ||| 10) :: [21, 22, 23, 24, 25, 26, 27].take (min 250 (16 - 10))) ∧
      ([21, 22, 23, 24, 25, 26, 27].take (min 250 (16 - 10))).length = min 250 (16 - 10) ∧
      (∀ clk dio : Bool, decodeFrames clk dio (emitted exState s') =
        [[0x40], (0xC0 ||| 10) :: [21, 22, 23, 24, 25, 26, 27].take (min 250 (16 - 10))]) ∧
      (s'.display_buffer.drop 10).take (min 250 (16 - 10)) =
        [21, 22, 23, 24, 25, 26, 27].take (min 250 (16 - 10)) :=
  ⟨by decide, by decide, by decide, by decide,
    C18_writeGridArray_frames exState 10 250 [21, 22, 23, 24, 25, 26, 27]
      (by decide) (by decide) (by decide) (by decide)⟩

/-- Claim C19. From every prior state (any 16-byte buffer content, any brightness, display on
or off), `TM1640_Init` returns; afterwards every buffer byte is 0 and `TM1640_GetBuffer(a)`
returns 0 for every `a`, the display is on with brightness 7 (`TM1640_BRIGHTNESS_14_16`), and
the last frame a device decodes from the events of `TM1640_Init` is the display-control frame
`[0x8F]`. -/
theorem C19_init_state (s : State) (hs : s.display_buffer.length = 16) :
    ∃ s', TM1640_Init s = some s' ∧
      s'.display_buffer = List.replicate 16 0 ∧
      (∀ a, TM1640_GetBuffer s' a = some 0) ∧
      s'.display_on = true ∧
      s'.current_brightness = TM1640_BRIGHTNESS_14_16 ∧
      TM1640_BRIGHTNESS_14_16 = 7 ∧
      ∀ clk dio : Bool, (decodeFrames clk dio (emitted s s')).getLast? = some [0x8F] := by
  refine ⟨_, Init_eq s hs, rfl, fun a => ?_, rfl, rfl, rfl, fun clk dio => ?_⟩
  · by_cases h16 : a ≥ 16
    · simp [TM1640_GetBuffer, TM1640_TOTAL_GRIDS, h16]
    · have ha : a < 16 := by omega
      simp only [TM1640_GetBuffer, TM1640_TOTAL_GRIDS, h16, if_false, bufLoad,
        List.getElem?_replicate, ha, if_true]
  · have h := decodeFrames_raise_frames clk dio
      [[0x40], [0x40], 0xC0 :: List.replicate 16 0, [0x8F]] (by decide)
    simp only [List.append_assoc, emitted_append]
    have h' : decodeFrames clk dio ([.CLK_HIGH, .DIO_HIGH] ++ (frameTrace [0x40] ++
        (frameTrace [0x40] ++ (frameTrace (0xC0 :: List.replicate 16 0) ++
          frameTrace [0x8F])))) =
        [[0x40], [0x40], 0xC0 :: List.replicate 16 0, [0x8F]] := by
      simpa using h
    rw [h']
    rfl

theorem C19_init_state_witness :
    exState.display_buffer.length = 16 ∧
    ∃ s', TM1640_Init exState = some s' ∧
      s'.display_buffer = List.replicate 16 0 ∧
      (∀ a, TM1640_GetBuffer s' a = some 0) ∧
      s'.display_on = true ∧
      s'.current_brightness = TM1640_BRIGHTNESS_14_16 ∧
      TM1640_BRIGHTNESS_14_16 = 7 ∧
      ∀ clk dio : Bool, (decodeFrames clk dio (emitted exState s')).getLast? = some [0x8F] :=
  ⟨by decide, C19_init_state exState (by decide)⟩

/-! ## Well-formed framing of the public operations -/

/-- Claim C20. Starting from an idle bus (clock high, data high), the signal trace of each of
`TM1640_SetBrightness`, `TM1640_DisplayOn`, `TM1640_Clear`, `TM1640_WriteGrid`,
`TM1640_WriteGridArray`, `TM1640_Flush` and `TM1640_Test` is well framed: the data line
changes while the clock is high only as a high-to-low transition with no frame open (start)
or as a low-to-high transition closing the open frame (stop), starts and stops alternate
beginning with a start, and the bus is idle again when the operation returns.  The number of
start/stop pairs is the number of frames of the operation (1, 1, 2, 2, 2, 2, 2; none for a
write to an address of 16 or more).  Inside `TM1640_WriteByte` the data line never changes
while the clock is high, whatever the line levels before it. -/
theorem C20_framing_well_formed (s : State) (brightness : Nat) (on_ : Bool)
    (address value start length : Nat) (data : List Nat)
    (hs : s.display_buffer.length = 16) (hdata : min length (16 - start) ≤ data.length) :
    wellFramed (emitted s (TM1640_SetBrightness s brightness)) 1 ∧
    wellFramed (emitted s (TM1640_DisplayOn s on_)) 1 ∧
    (∃ s', TM1640_Clear s = some s' ∧ wellFramed (emitted s s') 2) ∧
    (∃ s', TM1640_WriteGrid s address value = some s' ∧
      wellFramed (emitted s s') (if address < 16 then 2 else 0)) ∧
    (∃ s', TM1640_WriteGridArray s start data length = some s' ∧
      wellFramed (emitted s s') (if start < 16 then 2 else 0)) ∧
    (∃ s', TM1640_Flush s = some s' ∧ wellFramed (emitted s s') 2) ∧
    (∃ s', TM1640_Test s = some s' ∧ wellFramed (emitted s s') 2) ∧
    ∀ (b : Nat) (clk dio : Bool),
      dataStableWhileClockHigh clk dio (emitted s (TM1640_WriteByte s b)) = true := by
  refine ⟨?_, ?_, ?_, ?_, ?_, ?_, ?_, fun b clk dio => ?_⟩
  · rw [SetBrightness_eq, emitted_append]
    exact wellFramed_single _
  · rw [DisplayOn_eq, emitted_append]
    exact wellFramed_single _
  · refine ⟨_, Clear_eq s hs, ?_⟩
    rw [emitted_append_assoc]
    exact wellFramed_pair _ _
  · by_cases ha : address < 16
    · refine ⟨_, WriteGrid_eq s address value ha hs, ?_⟩
      rw [emitted_append_assoc, if_pos ha]
      exact wellFramed_pair _ _
    · have h : address ≥ TM1640_TOTAL_GRIDS := by simp only [TM1640_TOTAL_GRIDS]; omega
      refine ⟨s, by simp [TM1640_WriteGrid, h], ?_⟩
      rw [emitted_self, if_neg ha]
      exact wellFramed_nil
  · by_cases ha : start < 16
    · refine ⟨_, WriteGridArray_eq s start data length ha hs hdata, ?_⟩
      rw [emitted_append_assoc, if_pos ha]
      exact wellFramed_pair _ _
    · have h : start ≥ TM1640_TOTAL_GRIDS := by simp only [TM1640_TOTAL_GRIDS]; omega
      refine ⟨s, by simp [TM1640_WriteGridArray, h], ?_⟩
      rw [emitted_self, if_neg ha]
      exact wellFramed_nil
  · refine ⟨_, Flush_eq s hs, ?_⟩
    rw [emitted_append_assoc]
    exact wellFramed_pair _ _
  · refine ⟨_, Test_eq s hs, ?_⟩
    rw [emitted_append_assoc]
    exact wellFramed_pair _ _
  · rw [WriteByte_eq, emitted_append, byteTrace_eq_bits]
    exact stable_bits _ clk dio

theorem C20_framing_well_formed_witness :
    exState.display_buffer.length = 16 ∧
    min 7 (16 - 10) ≤ [21, 22, 23, 24, 25, 26, 27].length ∧
    (wellFramed (emitted exState (TM1640_SetBrightness exState 2)) 1 ∧
    wellFramed (emitted exState (TM1640_DisplayOn exState false)) 1 ∧
    (∃ s', TM1640_Clear exState = some s' ∧ wellFramed (emitted exState s') 2) ∧
    (∃ s', TM1640_WriteGrid exState 3 0x7F = some s' ∧
      wellFramed (emitted exState s') (if 3 < 16 then 2 else 0)) ∧
    (∃ s', TM1640_WriteGridArray exState 10 [21, 22, 23, 24, 25, 26, 27] 7 = some s' ∧
      wellFramed (emitted exState s') (if 10 < 16 then 2 else 0)) ∧
    (∃ s', TM1640_Flush exState = some s' ∧ wellFramed (emitted exState s') 2) ∧
    (∃ s', TM1640_Test exState = some s' ∧ wellFramed (emitted exState s') 2) ∧
    ∀ (b : Nat) (clk dio : Bool),
      dataStableWhileClockHigh clk dio (emitted exState (TM1640_WriteByte exState b)) = true) :=
  ⟨by decide, by decide,
    C20_framing_well_formed exState 2 false 3 0x7F 10 7 [21, 22, 23, 24, 25, 26, 27]
      (by decide) (by decide)⟩

end TM1640
